import Mathlib

/-!
Shallow embedding of `src/logger/logger.py` (class `Logger`) from the
sensor-logging repository, together with proofs about its specification.

Conventions used throughout:
* Python strings are modelled as `List Char`.
* Python `datetime` values are modelled by the `DateTime` structure below;
  absolute file times (`st_mtime`, the `datetime.now()` instants used for
  rotation-age arithmetic, archive-name timestamps and retention arithmetic)
  are modelled as `Int` seconds on one absolute timeline, so that
  `timedelta` comparisons become exact integer comparisons.
* Python `float` values are modelled as the exact decimal numerals that
  `str(float)` produces (sign, integer digits, decimal point, fraction
  digits).  CPython guarantees `float(str(x)) == x` for finite floats, so
  the decimal numeral is a faithful proxy for the float it denotes.
  Scientific-notation spellings (`1e+16`), `inf`/`nan` and bare-integer
  spellings accepted by `float()` lie outside the image of the printer and
  are not needed by any theorem; the parser maps them to `none`.
* Fallible Python operations (raising exceptions) are modelled with
  `Option`/`Except`; mutation of the `Logger` object that survives a raised
  exception is modelled by returning the post-exception state alongside an
  optional error.
-/

namespace SensorLog

/-- Characters of a Python `str`. -/
abbrev Chars := List Char

/-! ### Decimal digits -/

/-- The character for decimal digit `d` (`d < 10`). -/
def digitChar (d : Nat) : Char := Char.ofNat (48 + d)

/-- Numeric value of a decimal digit character. -/
def charVal (c : Char) : Nat := c.toNat - 48

/-- Is `c` one of `'0'..'9'`? -/
def isDigit (c : Char) : Bool := 48 ≤ c.toNat && c.toNat ≤ 57

/-- Value of a digit string, most significant digit first. -/
def natVal (cs : Chars) : Nat := cs.foldl (fun a c => a * 10 + charVal c) 0

/-- Digit string of a `Nat`, fuelled so that it computes by structural
recursion; `fuel` bounds the argument. -/
def natCharsAux : Nat → Nat → Chars
  | 0, _ => []
  | fuel + 1, n =>
    if n < 10 then [digitChar n] else natCharsAux fuel (n / 10) ++ [digitChar (n % 10)]

/-- Digit string of a `Nat`, as printed by Python (no leading zeros). -/
def natChars (n : Nat) : Chars := natCharsAux (n + 1) n

/-- Zero-padded two-digit field, as printed by `%02d` for `n < 100`. -/
def pad2 (n : Nat) : Chars := [digitChar (n / 10), digitChar (n % 10)]

/-- Zero-padded four-digit field, as printed by `%04d` for `n < 10000`. -/
def pad4 (n : Nat) : Chars :=
  [digitChar (n / 1000), digitChar (n / 100 % 10), digitChar (n / 10 % 10), digitChar (n % 10)]

/-- Zero-padded six-digit field (isoformat microseconds), for `n < 10 ^ 6`. -/
def pad6 (n : Nat) : Chars :=
  [digitChar (n / 100000), digitChar (n / 10000 % 10), digitChar (n / 1000 % 10),
   digitChar (n / 100 % 10), digitChar (n / 10 % 10), digitChar (n % 10)]

/-- Parse a fixed-width all-digit field. -/
def digs (cs : Chars) : Option Nat :=
  if cs.all isDigit then some (natVal cs) else none

/-! ### Python `datetime` -/

/-- A Python `datetime` value (fields of `datetime.datetime`). -/
structure DateTime where
  year : Nat
  month : Nat
  day : Nat
  hour : Nat
  minute : Nat
  second : Nat
  microsecond : Nat
deriving DecidableEq, Repr

/-- Is `y` a Gregorian leap year (Python `calendar.isleap`)? -/
def isLeap (y : Nat) : Bool := y % 4 == 0 && (y % 100 != 0 || y % 400 == 0)

/-- Days in a month, as validated by the `datetime` constructor. -/
def daysInMonth (y mo : Nat) : Nat :=
  if mo = 2 then (if isLeap y then 29 else 28)
  else if mo = 4 ∨ mo = 6 ∨ mo = 9 ∨ mo = 11 then 30 else 31

/-- The field ranges enforced by the `datetime` constructor. -/
def validDT (dt : DateTime) : Bool :=
  1 ≤ dt.year && dt.year ≤ 9999 && 1 ≤ dt.month && dt.month ≤ 12 &&
  1 ≤ dt.day && dt.day ≤ daysInMonth dt.year dt.month &&
  dt.hour ≤ 23 && dt.minute ≤ 59 && dt.second ≤ 59 && dt.microsecond ≤ 999999

/-- Mixed-radix key realising the field-lexicographic order on valid
`datetime` values; Python's `datetime` comparison is modelled as comparison
of keys. -/
def DateTime.key (dt : DateTime) : Nat :=
  ((((((dt.year * 13 + dt.month) * 32 + dt.day) * 24 + dt.hour) * 60 + dt.minute) * 60
      + dt.second) * 1000000) + dt.microsecond

/-- `datetime.isoformat()`: `YYYY-MM-DDTHH:MM:SS`, with `.ffffff` appended
exactly when `microsecond` is nonzero. -/
def isoformat (dt : DateTime) : Chars :=
  pad4 dt.year ++ '-' :: pad2 dt.month ++ '-' :: pad2 dt.day ++
    'T' :: pad2 dt.hour ++ ':' :: pad2 dt.minute ++ ':' :: pad2 dt.second ++
    (if dt.microsecond = 0 then [] else '.' :: pad6 dt.microsecond)

/-- `datetime.fromisoformat` on the formats `isoformat` emits: positional
parse of `YYYY-MM-DDTHH:MM:SS[.ffffff]` with the constructor's range
checks; every other input is a parse failure (`ValueError`). -/
def fromisoformat : Chars → Option DateTime
  | y1 :: y2 :: y3 :: y4 :: '-' :: o1 :: o2 :: '-' :: d1 :: d2 ::
      'T' :: h1 :: h2 :: ':' :: i1 :: i2 :: ':' :: s1 :: s2 :: rest =>
    match digs [y1, y2, y3, y4], digs [o1, o2], digs [d1, d2],
          digs [h1, h2], digs [i1, i2], digs [s1, s2] with
    | some y, some mo, some d, some h, some mi, some s =>
      if 1 ≤ y ∧ 1 ≤ mo ∧ mo ≤ 12 ∧ 1 ≤ d ∧ d ≤ daysInMonth y mo ∧
          h ≤ 23 ∧ mi ≤ 59 ∧ s ≤ 59 then
        match rest with
        | [] => some ⟨y, mo, d, h, mi, s, 0⟩
        | '.' :: u1 :: u2 :: u3 :: u4 :: u5 :: u6 :: [] =>
          (digs [u1, u2, u3, u4, u5, u6]).map (fun u => ⟨y, mo, d, h, mi, s, u⟩)
        | _ => none
      else none
    | _, _, _, _, _, _ => none
  | _ => none

/-! ### Python `float` values and their `str`/`float()` round trip -/

/-- A finite Python `float`, identified with the exact decimal numeral
`str` prints for it: optional sign, integer digits, decimal point, fraction
digits.  `str(float)` always emits at least one fraction digit
(`str(5.0) == '5.0'`). -/
structure PyFloat where
  neg : Bool
  ip : Nat
  frac : List Nat
deriving DecidableEq, Repr

/-- Well-formedness of the decimal numeral: a nonempty fraction whose
entries are digits. -/
def validFloat (f : PyFloat) : Bool :=
  !f.frac.isEmpty && f.frac.all (fun d => d < 10)

/-- `str(value)` for a finite float, in positional notation. -/
def floatChars (f : PyFloat) : Chars :=
  (if f.neg then ['-'] else []) ++ natChars f.ip ++ '.' :: f.frac.map digitChar

/-- The sign-free part of `float(s)`: digits, a point, digits. -/
def parsePos (cs : Chars) : Option PyFloat :=
  let ipcs := cs.takeWhile isDigit
  let rest := cs.dropWhile isDigit
  if ipcs.isEmpty then none
  else
    match rest with
    | '.' :: fr =>
      if fr.isEmpty || !fr.all isDigit then none
      else some ⟨false, natVal ipcs, fr.map charVal⟩
    | _ => none

/-- Python `float(s)` on the grammar `str(float)` produces; spellings
outside that grammar (exponent forms, bare integers, `inf`/`nan`) are not
produced by the writer and are mapped to a parse failure. -/
def parseFloat (cs : Chars) : Option PyFloat :=
  match cs with
  | [] => none
  | c :: rest =>
    if c = '-' then (parsePos rest).map (fun p => ⟨true, p.ip, p.frac⟩)
    else parsePos (c :: rest)

/-! ### The CSV encoding used by `csv.writer` / `csv.reader`

The writer is a `csv.DictWriter` over a file opened with `newline=''`; the
default dialect separates fields with `,`, quotes a field (doubling inner
quotes) exactly when it contains a delimiter, quote or newline
(QUOTE_MINIMAL), and terminates rows with `\r\n`.  A file is modelled as
the list of its rows, each row as the characters between terminators. -/

/-- Does QUOTE_MINIMAL quote this field? -/
def csvNeedsQuote (f : Chars) : Bool :=
  f.any (fun c => c == ',' || c == '"' || c == '\n' || c == '\r')

/-- Double every quote, as the writer does inside a quoted field. -/
def csvEsc : Chars → Chars
  | [] => []
  | c :: t => if c = '"' then '"' :: '"' :: csvEsc t else c :: csvEsc t

/-- One field as put on the wire by `csv.writer`. -/
def csvField (f : Chars) : Chars :=
  if csvNeedsQuote f then '"' :: (csvEsc f ++ ['"']) else f

/-- One row as put on the wire (without the `\r\n` terminator). -/
def csvRow : List Chars → Chars
  | [] => []
  | [f] => csvField f
  | f :: rest => csvField f ++ ',' :: csvRow rest

mutual

/-- `csv.reader` on one row, at the start of a field.  Inputs that leave
the grammar the writer emits (stray quotes) map to `none`; Python's
non-strict reader instead produces implementation-defined fields there,
and no theorem below depends on that branch. -/
def csvSplit : Chars → Option (List Chars)
  | [] => some [[]]
  | c :: rest =>
    if c = '"' then csvQuoted [] rest
    else if c = ',' then (csvSplit rest).map (fun fs => [] :: fs)
    else csvPlain [c] rest
termination_by structural l => l

/-- Inside an unquoted field; `acc` holds the field read so far, reversed. -/
def csvPlain (acc : Chars) : Chars → Option (List Chars)
  | [] => some [acc.reverse]
  | c :: rest =>
    if c = ',' then (csvSplit rest).map (fun fs => acc.reverse :: fs)
    else if c = '"' then none
    else csvPlain (c :: acc) rest
termination_by structural l => l

/-- Inside a quoted field. -/
def csvQuoted (acc : Chars) : Chars → Option (List Chars)
  | [] => none
  | c :: rest => if c = '"' then csvQuotedEnd acc rest else csvQuoted (c :: acc) rest
termination_by structural l => l

/-- Just after a quote character inside a quoted field: a second quote is
an escaped quote, a comma ends the field, end of row ends the row. -/
def csvQuotedEnd (acc : Chars) : Chars → Option (List Chars)
  | [] => some [acc.reverse]
  | c2 :: rest2 =>
    if c2 = '"' then csvQuoted ('"' :: acc) rest2
    else if c2 = ',' then (csvSplit rest2).map (fun fs => acc.reverse :: fs)
    else none
termination_by structural l => l

end

/-! ### Readings, the row encoder, and the `read_logs` row decoder -/

/-- One sensor reading as `Logger.update` records it:
`{'timestamp': datetime.now().isoformat(), 'sensor_id': ...,
'value': value, 'unit': ...}`. -/
structure Reading where
  timestamp : DateTime
  sensor_id : Chars
  value : PyFloat
  unit : Chars
deriving DecidableEq, Repr

/-- A reading whose datetime is constructor-valid and whose value is a
well-formed decimal numeral. -/
def validReading (r : Reading) : Bool := validDT r.timestamp && validFloat r.value

/-- The CSV line `Logger.update` writes for one reading
(`DictWriter.writerow` over fields `timestamp, sensor_id, value, unit`;
the csv writer stringifies the float). -/
def encodeReading (r : Reading) : Chars :=
  csvRow [isoformat r.timestamp, r.sensor_id, floatChars r.value, r.unit]

/-- A decoded row as `read_logs` materialises it.  `DictReader` yields
`None` for a field missing from a short row, modelled by `Option`. -/
structure Entry where
  timestamp : DateTime
  sensor_id : Option Chars
  value : PyFloat
  unit : Option Chars
deriving DecidableEq, Repr

/-- The dict `read_logs` builds from a fully present row. -/
def Reading.toEntry (r : Reading) : Entry :=
  ⟨r.timestamp, some r.sensor_id, r.value, some r.unit⟩

/-- The sensor filter: `sensor_id is None or row['sensor_id'] == sensor_id`
(comparing the missing-field `None` against a string is `False`). -/
def sidMatch (filter : Option Chars) (sid : Option Chars) : Bool :=
  match filter with
  | none => true
  | some s => sid == some s

/-- The row predicate of `read_logs`:
`start <= ts <= end and (sensor_id is None or row['sensor_id'] == sensor_id)`,
on the parsed timestamp and the raw `sensor_id` field; `start`/`end` enter
as datetime keys. -/
def matchTs (startK endK : Nat) (filter : Option Chars) (ts : DateTime)
    (sid : Option Chars) : Bool :=
  decide (startK ≤ ts.key) && decide (ts.key ≤ endK) && sidMatch filter sid

/-- Errors that abort `read_logs`: `FileNotFoundError` from a file that
vanished between listing and opening, or an uncaught exception from
decoding a row. -/
inductive ReadErr where
  | vanished
  | badRow
deriving DecidableEq, Repr

/-- The loop body of `read_logs` on one data row: csv-split the line,
parse `row['timestamp']` (uncaught `ValueError`/`TypeError` on failure or
missing field), test `start <= ts <= end` and the sensor filter, and only
for matching rows convert `float(row['value'])` (uncaught on failure).
`start`/`end` enter as the keys of the two datetimes.  Python's non-strict
csv reader never raises on stray quotes; the `csvSplit = none` branch is a
conservative error and no theorem depends on it. -/
def scanLine (startK endK : Nat) (filter : Option Chars) (line : Chars) :
    Except ReadErr (Option Entry) :=
  match csvSplit line with
  | none => .error .badRow
  | some fs =>
    match (fs[0]?).bind fromisoformat with
    | none => .error .badRow
    | some ts =>
      if matchTs startK endK filter ts fs[1]? then
        match (fs[2]?).bind parseFloat with
        | none => .error .badRow
        | some v => .ok (some ⟨ts, fs[1]?, v, fs[3]?⟩)
      else .ok none

/-- Scan the data rows of one file in order, collecting matching entries;
the first uncaught exception aborts the whole read. -/
def scanRows (startK endK : Nat) (filter : Option Chars) : List Chars →
    Except ReadErr (List Entry)
  | [] => .ok []
  | l :: rest => do
    let e ← scanLine startK endK filter l
    let es ← scanRows startK endK filter rest
    match e with
    | none => .ok es
    | some x => .ok (x :: es)

/-- The comparison of `sorted(entries, key=lambda x: x['timestamp'])`. -/
def entryRel (a b : Entry) : Prop := a.timestamp.key ≤ b.timestamp.key

instance : DecidableRel entryRel := fun a b => Nat.decLe a.timestamp.key b.timestamp.key

instance : IsTotal Entry entryRel := ⟨fun a b => Nat.le_total a.timestamp.key b.timestamp.key⟩

instance : IsTrans Entry entryRel := ⟨fun _ _ _ => Nat.le_trans⟩

/-- A file as `read_logs` encounters it.  `listed` models
`current_file.exists()` (for the active file) or presence in
`archive_dir.glob('*.zip')`; `present` models whether the file is still
there when it is actually opened; `rows` are its data rows, after the
header row that `DictReader` consumes as field names. -/
structure ScanFile where
  listed : Bool
  present : Bool
  rows : List Chars
deriving DecidableEq, Repr

/-- Scan one file: skipped entirely when not listed; opening a listed but
vanished file raises `FileNotFoundError`, which `read_logs` does not
catch. -/
def scanFile (startK endK : Nat) (filter : Option Chars) (f : ScanFile) :
    Except ReadErr (List Entry) :=
  if f.listed then
    if f.present then scanRows startK endK filter f.rows else .error .vanished
  else .ok []

/-- `Logger.read_logs`: scan the active file (guarded by `exists()`), then
every archive in the directory listing (unguarded), and return the
collected entries sorted by timestamp (Python's stable `sorted`). -/
def read_logs (active : ScanFile) (archives : List ScanFile) (startK endK : Nat)
    (filter : Option Chars) : Except ReadErr (List Entry) := do
  let a ← scanFile startK endK filter active
  let ars ← archives.mapM (scanFile startK endK filter)
  .ok ((a ++ ars.flatten).insertionSort entryRel)

/-! ### The `Logger` state machine -/

/-- Logger configuration: `rotate_every_hours`, `max_size_mb`,
`rotate_after_lines`, `retention_days`. -/
structure Config where
  rotate_every : Int
  max_size : Int
  rotate_after : Int
  retention : Int
deriving DecidableEq, Repr

/-- The active CSV file the writer owns, with the filesystem metadata
`_needs_rotation` consults.  `rows` are the data rows (the header row, when
present, is accounted separately by `hasHeader`). -/
structure ActiveFile where
  hasHeader : Bool
  rows : List Chars
  ctime : Int
  mtime : Int
deriving DecidableEq, Repr

/-- One archive `<base>.<YYYYMMDDHHMMSS>.zip`: the embedded rotation
timestamp (on the seconds timeline) and the data rows of the zipped CSV.
`filename_pattern` is modelled as a constant base name, so the embedded
timestamp is the whole archive identity. -/
structure ArchiveFile where
  nameTs : Int
  rows : List Chars
deriving DecidableEq, Repr

structure LoggerState where
  cfg : Config
  active : ActiveFile
  lineCount : Nat
  archives : List ArchiveFile
  fpOpen : Bool
deriving DecidableEq, Repr

/-- The header row `DictWriter.writeheader` emits. -/
def headerLine : Chars :=
  csvRow ["timestamp".toList, "sensor_id".toList, "value".toList, "unit".toList]

/-- `st_size` of the active file: bytes of the header (when present) and
of every row, each with its `\r\n` terminator (the file content is ASCII,
so characters are bytes). -/
def fileSize (f : ActiveFile) : Nat :=
  (if f.hasHeader then headerLine.length + 2 else 0) +
    (f.rows.map (fun r => r.length + 2)).sum

/-- `Logger._needs_rotation`: the row-count, age and size triggers, tried
in that order, each with `≥`.  The age is `datetime.now() -
datetime.fromtimestamp(current_file.stat().st_mtime)`, compared against
`timedelta(hours=rotate_every)` — exact arithmetic in seconds. -/
def needs_rotation (cfg : Config) (lineCount : Nat) (now : Int) (mtime : Int)
    (size : Nat) : Bool :=
  if (lineCount : Int) ≥ cfg.rotate_after then true
  else if now - mtime ≥ cfg.rotate_every * 3600 then true
  else if (size : Int) ≥ cfg.max_size * 1024 * 1024 then true
  else false

/-- The rotation predicate as claim C4 words it, with file age measured
from the file's creation time.  This definition follows the claim's words
and exists only to be compared with `needs_rotation`, which the source
computes from `st_mtime`. -/
def needs_rotation_claimed (cfg : Config) (lineCount : Nat) (now ctime : Int)
    (size : Nat) : Bool :=
  decide ((lineCount : Int) ≥ cfg.rotate_after) ||
    decide (now - ctime ≥ cfg.rotate_every * 3600) ||
    decide ((size : Int) ≥ cfg.max_size * 1024 * 1024)

/-- One entry of the archive directory as `_cleanup_archives` sees it:
`tsParse` is `strptime(z.stem.split('.')[-1], '%Y%m%d%H%M%S')` (`none`
models a raised `ValueError`); `unlinkOk` models whether `z.unlink()`
succeeds. -/
structure DirEntry where
  tsParse : Option Int
  unlinkOk : Bool
deriving DecidableEq, Repr

/-- Does `_cleanup_archives` keep this entry?  A parse failure or a failed
`unlink` is swallowed by `except Exception: continue`, leaving the entry
on disk; a parsed timestamp is deleted exactly when `ts < expire`. -/
def sweepKeeps (expire : Int) (e : DirEntry) : Bool :=
  match e.tsParse with
  | none => true
  | some ts => if ts < expire then !e.unlinkOk else true

/-- `Logger._cleanup_archives` over an arbitrary directory listing, with
`expire = now - timedelta(days=retention)`. -/
def cleanup_archives (expire : Int) (dir : List DirEntry) : List DirEntry :=
  dir.filter (sweepKeeps expire)

/-- `_cleanup_archives` restricted to archives this logger created: their
embedded `%Y%m%d%H%M%S` stamp always re-parses to the rotation instant
(`z.stem.split('.')[-1]` recovers it whatever the base name), and `unlink`
succeeds on them. -/
def cleanupOwn (expire : Int) (l : List ArchiveFile) : List ArchiveFile :=
  l.filter (fun a => sweepKeeps expire ⟨some a.nameTs, true⟩)

/-- Exceptions the writer can raise out of `update`. -/
inductive PyErr where
  | zipFailed
  | closedFile
deriving DecidableEq, Repr

/-- `Logger._rotate` at instant `now` (the several `datetime.now()` calls
inside one rotation are collapsed to one instant, which also names the
archive).  Steps of the source, in order: close the handle; write the zip
(`zipOk = false` models `ZipFile`/`write` raising there — the handle stays
closed, nothing else happens, the exception propagates); unlink the
active file; reset `_line_count`; open a fresh current file (header
written); prune the archive directory.  `ZipFile(archive, 'w')` truncates
an existing archive of the same name, hence the overwrite on equal
`nameTs`. -/
def rotate (now : Int) (zipOk : Bool) (st : LoggerState) : LoggerState × Option PyErr :=
  if zipOk then
    ({ st with
        archives := cleanupOwn (now - st.cfg.retention * 86400)
          (st.archives.filter (fun a => !(a.nameTs == now)) ++ [⟨now, st.active.rows⟩])
        lineCount := 0
        active := ⟨true, [], now, now⟩
        fpOpen := true }, none)
  else ({ st with fpOpen := false }, some .zipFailed)

/-- `Logger.update`: build the record with `timestamp = datetime.now()`,
`writerow` it and flush (a handle left closed by a failed rotation makes
`writerow` raise `ValueError` before anything is written), bump
`_line_count`, then check `_needs_rotation` and possibly `_rotate`.
`tsNow` is the record's datetime and `now` the same instant on the seconds
timeline. -/
def update (tsNow : DateTime) (now : Int) (zipOk : Bool) (sid : Chars) (v : PyFloat)
    (unitS : Chars) (st : LoggerState) : LoggerState × Option PyErr :=
  if st.fpOpen then
    if needs_rotation st.cfg (st.lineCount + 1) now now
        (fileSize ⟨st.active.hasHeader,
          st.active.rows ++ [encodeReading ⟨tsNow, sid, v, unitS⟩], st.active.ctime, now⟩) then
      rotate now zipOk
        { st with
          active := { st.active with
            rows := st.active.rows ++ [encodeReading ⟨tsNow, sid, v, unitS⟩], mtime := now }
          lineCount := st.lineCount + 1 }
    else
      ({ st with
          active := { st.active with
            rows := st.active.rows ++ [encodeReading ⟨tsNow, sid, v, unitS⟩], mtime := now }
          lineCount := st.lineCount + 1 }, none)
  else (st, some .closedFile)

/-- `Logger.__init__` at instant `now`: resolve the current path from
`filename_pattern`; `_open_file` appends to a preexisting file (writing no
new header) or creates a fresh one with a header; `_line_count` is set to
0 either way.  `pre` is the preexisting file at that path, if any; `arcs`
the preexisting archive directory contents. -/
def mkLogger (cfg : Config) (now : Int) (pre : Option ActiveFile)
    (arcs : List ArchiveFile) : LoggerState :=
  { cfg := cfg
    active := match pre with
      | none => ⟨true, [], now, now⟩
      | some f => f
    lineCount := 0
    archives := arcs
    fpOpen := true }

/-- `read_logs` on the logger's own files in the quiescent case: every
file exists at both listing and opening time, and each carries the
standard header row that `DictReader` consumes as field names. -/
def read_logsM (st : LoggerState) (startK endK : Nat) (filter : Option Chars) :
    Except ReadErr (List Entry) :=
  read_logs ⟨true, true, st.active.rows⟩ (st.archives.map (fun a => ⟨true, true, a.rows⟩))
    startK endK filter

/-! ### Decoding lemmas -/

/-- The filter-independent content of one data row: both field
conversions of the `read_logs` loop, run unconditionally. -/
def decodeLine (line : Chars) : Option Entry :=
  (csvSplit line).bind fun fs =>
    ((fs[0]?).bind fromisoformat).bind fun ts =>
      ((fs[2]?).bind parseFloat).map fun v => ⟨ts, fs[1]?, v, fs[3]?⟩

/-- The row predicate of `read_logs`, on a decoded entry. -/
def entryMatch (startK endK : Nat) (filter : Option Chars) (e : Entry) : Bool :=
  matchTs startK endK filter e.timestamp e.sensor_id

/-- All data rows a state owns: active file first, then the archives in
directory order (the order `read_logs` scans). -/
def stLines (st : LoggerState) : List Chars :=
  st.active.rows ++ (st.archives.map ArchiveFile.rows).flatten

/-- All decodable entries a state owns. -/
def stEntries (st : LoggerState) : List Entry := (stLines st).filterMap decodeLine

/-- The per-call inputs of one `update` call. -/
structure Ev where
  tsNow : DateTime
  sid : Chars
  value : PyFloat
  unit : Chars
  now : Int
deriving DecidableEq, Repr

/-- The reading an event appends. -/
def Ev.reading (e : Ev) : Reading := ⟨e.tsNow, e.sid, e.value, e.unit⟩

/-- Run a sequence of `update` calls (with all archive writes
succeeding). -/
def runUpdates (st : LoggerState) : List Ev → LoggerState
  | [] => st
  | e :: rest => runUpdates (update e.tsNow e.now true e.sid e.value e.unit st).1 rest

/-! ### Runs of `update` from a fresh logger -/

/-- Invariant of a run: the writer handle is open, the data rows of the
archives (in directory order) followed by the active rows are exactly the
encoded readings appended so far, and every archive is stamped with the
instant of some already-processed event. -/
def RunInv (cfg : Config) (done : List Ev) (st : LoggerState) : Prop :=
  st.cfg = cfg ∧ st.fpOpen = true ∧
  (st.archives.map ArchiveFile.rows).flatten ++ st.active.rows
      = done.map (fun e => encodeReading e.reading) ∧
  ∀ a ∈ st.archives, ∃ x ∈ done, a.nameTs = x.now

theorem natCharsAux_congr : ∀ (f1 f2 n : Nat), n < f1 → n < f2 →
    natCharsAux f1 n = natCharsAux f2 n
  | f1 + 1, f2 + 1, n, h1, h2 => by
    simp only [natCharsAux]
    split
    · rfl
    · next h =>
      rw [natCharsAux_congr f1 f2 (n / 10) (by omega) (by omega)]

theorem natChars_eq (n : Nat) : natChars n =
    if n < 10 then [digitChar n] else natChars (n / 10) ++ [digitChar (n % 10)] := by
  show natCharsAux (n + 1) n = _
  rw [show natCharsAux (n + 1) n
      = if n < 10 then [digitChar n] else natCharsAux n (n / 10) ++ [digitChar (n % 10)]
    from rfl]
  split
  · rfl
  · next h =>
    rw [natCharsAux_congr n (n / 10 + 1) (n / 10) (by omega) (by omega)]
    rfl

theorem isDigit_digitChar {d : Nat} (h : d < 10) : isDigit (digitChar d) = true := by
  interval_cases d <;> rfl

theorem charVal_digitChar {d : Nat} (h : d < 10) : charVal (digitChar d) = d := by
  interval_cases d <;> rfl

theorem digs_pad2 {n : Nat} (h : n < 100) : digs (pad2 n) = some n := by
  have h1 : n / 10 < 10 := by omega
  have h2 : n % 10 < 10 := by omega
  simp [digs, pad2, natVal, isDigit_digitChar h1, isDigit_digitChar h2,
        charVal_digitChar h1, charVal_digitChar h2]
  omega

theorem digs_pad4 {n : Nat} (h : n < 10000) : digs (pad4 n) = some n := by
  have h1 : n / 1000 < 10 := by omega
  have h2 : n / 100 % 10 < 10 := by omega
  have h3 : n / 10 % 10 < 10 := by omega
  have h4 : n % 10 < 10 := by omega
  simp [digs, pad4, natVal, isDigit_digitChar h1, isDigit_digitChar h2, isDigit_digitChar h3,
        isDigit_digitChar h4, charVal_digitChar h1, charVal_digitChar h2, charVal_digitChar h3,
        charVal_digitChar h4]
  omega

theorem digs_pad6 {n : Nat} (h : n < 1000000) : digs (pad6 n) = some n := by
  have h1 : n / 100000 < 10 := by omega
  have h2 : n / 10000 % 10 < 10 := by omega
  have h3 : n / 1000 % 10 < 10 := by omega
  have h4 : n / 100 % 10 < 10 := by omega
  have h5 : n / 10 % 10 < 10 := by omega
  have h6 : n % 10 < 10 := by omega
  simp [digs, pad6, natVal, isDigit_digitChar h1, isDigit_digitChar h2, isDigit_digitChar h3,
        isDigit_digitChar h4, isDigit_digitChar h5, isDigit_digitChar h6,
        charVal_digitChar h1, charVal_digitChar h2, charVal_digitChar h3,
        charVal_digitChar h4, charVal_digitChar h5, charVal_digitChar h6]
  omega

theorem daysInMonth_le (y mo : Nat) : daysInMonth y mo ≤ 31 := by
  unfold daysInMonth
  split
  · split <;> omega
  · split <;> omega

theorem fromisoformat_isoformat {dt : DateTime} (h : validDT dt = true) :
    fromisoformat (isoformat dt) = some dt := by
  obtain ⟨y, mo, d, hh, mi, s, u⟩ := dt
  simp only [validDT, Bool.and_eq_true, decide_eq_true_eq] at h
  obtain ⟨⟨⟨⟨⟨⟨⟨⟨⟨hy1, hy2⟩, hmo1⟩, hmo2⟩, hd1⟩, hd2⟩, hh1⟩, hmi1⟩, hs1⟩, hu1⟩ := h
  have hdim := daysInMonth_le y mo
  have hy : y < 10000 := by omega
  have hmo : mo < 100 := by omega
  have hd : d < 100 := by omega
  have hhh : hh < 100 := by omega
  have hmi : mi < 100 := by omega
  have hs : s < 100 := by omega
  by_cases hu : u = 0
  · subst hu
    have e4 := digs_pad4 hy
    simp only [pad4] at e4
    have emo := digs_pad2 hmo
    have ed := digs_pad2 hd
    have ehh := digs_pad2 hhh
    have emi := digs_pad2 hmi
    have es := digs_pad2 hs
    simp only [pad2] at emo ed ehh emi es
    simp only [isoformat, pad4, pad2, reduceIte, List.cons_append, List.nil_append,
      List.append_nil]
    simp only [fromisoformat, e4, emo, ed, ehh, emi, es]
    rw [if_pos (by omega)]
  · have hu2 : u < 1000000 := by omega
    simp only [isoformat, pad4, pad2, pad6, if_neg hu]
    simp only [List.cons_append, List.nil_append, fromisoformat]
    have e4 := digs_pad4 hy
    simp only [pad4] at e4
    have emo := digs_pad2 hmo
    have ed := digs_pad2 hd
    have ehh := digs_pad2 hhh
    have emi := digs_pad2 hmi
    have es := digs_pad2 hs
    simp only [pad2] at emo ed ehh emi es
    have e6 := digs_pad6 hu2
    simp only [pad6] at e6
    simp only [e4, emo, ed, ehh, emi, es, e6]
    rw [if_pos (by omega)]
    simp

theorem natChars_all_digits (n : Nat) : (natChars n).all isDigit = true := by
  induction n using Nat.strong_induction_on with
  | _ n ih =>
    rw [natChars_eq]
    split
    · next h => simp [isDigit_digitChar h]
    · next h =>
      have ihn := ih (n / 10) (Nat.div_lt_self (by omega) (by omega))
      simp [List.all_append, ihn, isDigit_digitChar (Nat.mod_lt n (by omega))]

theorem natVal_append_digit (cs : Chars) (c : Char) :
    natVal (cs ++ [c]) = natVal cs * 10 + charVal c := by
  simp [natVal, List.foldl_append]

theorem natVal_natChars (n : Nat) : natVal (natChars n) = n := by
  induction n using Nat.strong_induction_on with
  | _ n ih =>
    rw [natChars_eq]
    split
    · next h => simp [natVal, charVal_digitChar h]
    · next h =>
      have ihn := ih (n / 10) (Nat.div_lt_self (by omega) (by omega))
      rw [natVal_append_digit, ihn, charVal_digitChar (Nat.mod_lt n (by omega))]
      omega

theorem natChars_ne_nil (n : Nat) : natChars n ≠ [] := by
  rw [natChars_eq]
  split <;> simp

theorem takeWhile_append_all {p : Char → Bool} {l : Chars} (l2 : Chars)
    (h : l.all p = true) : (l ++ l2).takeWhile p = l ++ l2.takeWhile p := by
  induction l with
  | nil => simp
  | cons c t ih =>
    simp only [List.all_cons, Bool.and_eq_true] at h
    simp [List.takeWhile_cons, h.1, ih h.2]

theorem dropWhile_append_all {p : Char → Bool} {l : Chars} (l2 : Chars)
    (h : l.all p = true) : (l ++ l2).dropWhile p = l2.dropWhile p := by
  induction l with
  | nil => simp
  | cons c t ih =>
    simp only [List.all_cons, Bool.and_eq_true] at h
    simp [List.dropWhile_cons, h.1, ih h.2]

theorem isDigit_dot : isDigit '.' = false := rfl

theorem parsePos_print (ip : Nat) (fr : List Nat) (hne : fr ≠ [])
    (hd : fr.all (fun d => d < 10) = true) :
    parsePos (natChars ip ++ '.' :: fr.map digitChar) = some ⟨false, ip, fr⟩ := by
  have hall := natChars_all_digits ip
  have htw : (natChars ip ++ '.' :: fr.map digitChar).takeWhile isDigit
      = natChars ip ++ ('.' :: fr.map digitChar).takeWhile isDigit :=
    takeWhile_append_all ('.' :: fr.map digitChar) hall
  have hdw : (natChars ip ++ '.' :: fr.map digitChar).dropWhile isDigit
      = ('.' :: fr.map digitChar).dropWhile isDigit :=
    dropWhile_append_all ('.' :: fr.map digitChar) hall
  rw [parsePos]
  simp only [htw, hdw, List.takeWhile_cons, isDigit_dot, Bool.false_eq_true, if_false,
    List.dropWhile_cons]
  simp only [List.takeWhile_nil, List.append_nil, List.dropWhile_nil]
  rw [if_neg (by simp [natChars_ne_nil ip])]
  have hfr : (fr.map digitChar).all isDigit = true := by
    rw [List.all_eq_true]
    intro c hcm
    rw [List.mem_map] at hcm
    obtain ⟨d, hdm, rfl⟩ := hcm
    exact isDigit_digitChar (by simpa using List.all_eq_true.mp hd d hdm)
  rw [if_neg]
  · rw [natVal_natChars]
    congr 1
    simp only [List.map_map]
    rw [show (charVal ∘ digitChar) = fun d => charVal (digitChar d) from rfl]
    rw [List.map_congr_left, List.map_id]
    intro d hdm
    simp only [List.all_eq_true] at hd
    exact charVal_digitChar (by simpa using hd d hdm)
  · simp [hfr, hne]

theorem parseFloat_floatChars {f : PyFloat} (h : validFloat f = true) :
    parseFloat (floatChars f) = some f := by
  obtain ⟨neg, ip, fr⟩ := f
  simp only [validFloat, Bool.and_eq_true, Bool.not_eq_eq_eq_not, Bool.not_true] at h
  obtain ⟨hne0, hd⟩ := h
  have hne : fr ≠ [] := by cases fr <;> simp_all
  cases neg with
  | true =>
    have hfc : floatChars ⟨true, ip, fr⟩ = '-' :: (natChars ip ++ '.' :: fr.map digitChar) :=
      rfl
    rw [hfc]
    simp only [parseFloat]
    rw [if_pos trivial, parsePos_print ip fr hne hd]
    rfl
  | false =>
    have hfc : floatChars ⟨false, ip, fr⟩ = natChars ip ++ '.' :: fr.map digitChar := rfl
    rw [hfc]
    obtain ⟨c, t, hct⟩ : ∃ c t, natChars ip = c :: t := by
      cases hn : natChars ip with
      | nil => exact absurd hn (natChars_ne_nil ip)
      | cons c t => exact ⟨c, t, rfl⟩
    have hcd : isDigit c = true := by
      have := natChars_all_digits ip
      rw [hct] at this
      simp only [List.all_cons, Bool.and_eq_true] at this
      exact this.1
    have hcne : c ≠ '-' := by
      intro hc
      rw [hc] at hcd
      exact absurd hcd (by decide)
    rw [hct, List.cons_append]
    simp only [parseFloat]
    rw [if_neg hcne, ← List.cons_append, ← hct]
    exact parsePos_print ip fr hne hd

theorem csvNeedsQuote_cons {c : Char} {t : Chars} (h : csvNeedsQuote (c :: t) = false) :
    (c ≠ ',' ∧ c ≠ '"') ∧ csvNeedsQuote t = false := by
  simp only [csvNeedsQuote, List.any_cons, Bool.or_eq_false_iff, beq_eq_false_iff_ne] at h
  exact ⟨⟨h.1.1.1.1, h.1.1.1.2⟩, by
    simp only [csvNeedsQuote]
    exact h.2⟩

theorem csvPlain_run (f : Chars) (hf : csvNeedsQuote f = false) (acc : Chars) :
    (csvPlain acc f = some [acc.reverse ++ f]) ∧
    (∀ rest, csvPlain acc (f ++ ',' :: rest) =
      (csvSplit rest).map (fun fs => (acc.reverse ++ f) :: fs)) := by
  induction f generalizing acc with
  | nil =>
    refine ⟨by simp [csvPlain], fun rest => ?_⟩
    simp [csvPlain]
  | cons c t ih =>
    obtain ⟨⟨hc1, hc2⟩, ht⟩ := csvNeedsQuote_cons hf
    have ihs := ih ht (c :: acc)
    constructor
    · show csvPlain acc (c :: t) = _
      simp only [csvPlain, if_neg hc1, if_neg hc2, ihs.1]
      simp
    · intro rest
      show csvPlain acc (c :: (t ++ ',' :: rest)) = _
      simp only [csvPlain, if_neg hc1, if_neg hc2, ihs.2 rest]
      simp

theorem csvQuoted_run (f : Chars) (acc : Chars) :
    (csvQuoted acc (csvEsc f ++ ['"']) = some [acc.reverse ++ f]) ∧
    (∀ rest, csvQuoted acc (csvEsc f ++ '"' :: ',' :: rest) =
      (csvSplit rest).map (fun fs => (acc.reverse ++ f) :: fs)) := by
  induction f generalizing acc with
  | nil =>
    refine ⟨by simp [csvEsc, csvQuoted, csvQuotedEnd], fun rest => ?_⟩
    simp [csvEsc, csvQuoted, csvQuotedEnd]
  | cons c t ih =>
    by_cases hc : c = '"'
    · subst hc
      have ihs := ih ('"' :: acc)
      constructor
      · show csvQuoted acc (('"' :: '"' :: csvEsc t) ++ ['"']) = _
        rw [show csvQuoted acc (('"' :: '"' :: csvEsc t) ++ ['"'])
            = csvQuoted ('"' :: acc) (csvEsc t ++ ['"']) from rfl, ihs.1]
        simp
      · intro rest
        show csvQuoted acc (('"' :: '"' :: csvEsc t) ++ '"' :: ',' :: rest) = _
        rw [show csvQuoted acc (('"' :: '"' :: csvEsc t) ++ '"' :: ',' :: rest)
            = csvQuoted ('"' :: acc) (csvEsc t ++ '"' :: ',' :: rest) from rfl, ihs.2 rest]
        simp
    · have ihs := ih (c :: acc)
      constructor
      · show csvQuoted acc ((if c = '"' then '"' :: '"' :: csvEsc t else c :: csvEsc t) ++ ['"']) = _
        rw [if_neg hc, List.cons_append]
        simp only [csvQuoted, if_neg hc, ihs.1]
        simp
      · intro rest
        show csvQuoted acc
            ((if c = '"' then '"' :: '"' :: csvEsc t else c :: csvEsc t) ++ '"' :: ',' :: rest) = _
        rw [if_neg hc, List.cons_append]
        simp only [csvQuoted, if_neg hc, ihs.2 rest]
        simp

theorem csvSplit_field (f : Chars) :
    (csvSplit (csvField f) = some [f]) ∧
    (∀ rest, csvSplit (csvField f ++ ',' :: rest) =
      (csvSplit rest).map (fun fs => f :: fs)) := by
  by_cases hq : csvNeedsQuote f
  · constructor
    · show csvSplit ((if csvNeedsQuote f then '"' :: (csvEsc f ++ ['"']) else f)) = _
      rw [if_pos hq]
      simp only [csvSplit, reduceIte, (csvQuoted_run f []).1]
      simp
    · intro rest
      show csvSplit ((if csvNeedsQuote f then '"' :: (csvEsc f ++ ['"']) else f) ++ ',' :: rest) = _
      rw [if_pos hq, List.cons_append, List.append_assoc]
      simp only [csvSplit, reduceIte]
      show csvQuoted [] (csvEsc f ++ '"' :: ',' :: rest) = _
      rw [(csvQuoted_run f []).2 rest]
      simp
  · have hq2 : csvNeedsQuote f = false := by simpa using hq
    have hfe : csvField f = f := by simp [csvField, hq2]
    rw [hfe]
    cases f with
    | nil =>
      refine ⟨by simp [csvSplit], fun rest => ?_⟩
      simp [csvSplit]
    | cons c t =>
      obtain ⟨⟨hc1, hc2⟩, ht⟩ := csvNeedsQuote_cons hq2
      have hr := csvPlain_run t ht [c]
      constructor
      · simp only [csvSplit, if_neg hc2, if_neg hc1, hr.1]
        simp
      · intro rest
        rw [List.cons_append]
        simp only [csvSplit, if_neg hc2, if_neg hc1, hr.2 rest]
        simp

theorem csvSplit_row (fs : List Chars) (h : fs ≠ []) : csvSplit (csvRow fs) = some fs := by
  induction fs with
  | nil => exact absurd rfl h
  | cons f rest ih =>
    cases rest with
    | nil =>
      show csvSplit (csvRow [f]) = _
      rw [show csvRow [f] = csvField f from rfl, (csvSplit_field f).1]
    | cons g more =>
      show csvSplit (csvRow (f :: g :: more)) = _
      rw [show csvRow (f :: g :: more) = csvField f ++ ',' :: csvRow (g :: more) from rfl,
        (csvSplit_field f).2, ih (by simp)]
      rfl

theorem scanLine_decode {line : Chars} {e : Entry} (startK endK : Nat)
    (filter : Option Chars) (h : decodeLine line = some e) :
    scanLine startK endK filter line =
      .ok (if entryMatch startK endK filter e then some e else none) := by
  unfold decodeLine at h
  cases hcs : csvSplit line with
  | none => rw [hcs] at h; exact Option.noConfusion h
  | some fs =>
    rw [hcs] at h
    simp only [Option.some_bind] at h
    cases hts : (fs[0]?).bind fromisoformat with
    | none => rw [hts] at h; exact Option.noConfusion h
    | some ts =>
      rw [hts] at h
      simp only [Option.some_bind] at h
      cases hv : (fs[2]?).bind parseFloat with
      | none => rw [hv] at h; exact Option.noConfusion h
      | some v =>
        rw [hv] at h
        obtain rfl : (⟨ts, fs[1]?, v, fs[3]?⟩ : Entry) = e := Option.some.inj h
        simp only [scanLine, hcs, hts, entryMatch]
        by_cases hm : matchTs startK endK filter ts fs[1]? = true
        · rw [if_pos hm, hv, if_pos hm]
        · rw [if_neg hm, if_neg hm]

theorem decodeLine_encode {r : Reading} (h : validReading r = true) :
    decodeLine (encodeReading r) = some r.toEntry := by
  simp only [validReading, Bool.and_eq_true] at h
  unfold decodeLine encodeReading
  rw [csvSplit_row _ (by simp)]
  simp [fromisoformat_isoformat h.1, parseFloat_floatChars h.2, Reading.toEntry]

theorem scanRows_decodable {lines : List Chars} (startK endK : Nat) (filter : Option Chars)
    (h : ∀ l ∈ lines, (decodeLine l).isSome) :
    scanRows startK endK filter lines =
      .ok ((lines.filterMap decodeLine).filter (entryMatch startK endK filter)) := by
  induction lines with
  | nil => rfl
  | cons l rest ih =>
    obtain ⟨e, he⟩ := Option.isSome_iff_exists.mp (h l (by simp))
    have hrest := ih (fun x hx => h x (by simp [hx]))
    simp only [scanRows, scanLine_decode startK endK filter he, hrest]
    by_cases hm : entryMatch startK endK filter e = true
    · simp only [List.filterMap_cons, he, List.filter_cons, hm, if_pos]
      rfl
    · have hm2 : entryMatch startK endK filter e = false := by
        cases hmm : entryMatch startK endK filter e
        · rfl
        · exact absurd hmm hm
      simp only [List.filterMap_cons, he, List.filter_cons, hm2, Bool.false_eq_true, if_false]
      rfl

theorem scanRows_err {lines : List Chars} {l : Chars} {er : ReadErr}
    (startK endK : Nat) (filter : Option Chars) (hl : l ∈ lines)
    (he : scanLine startK endK filter l = .error er) :
    ∃ er2, scanRows startK endK filter lines = .error er2 := by
  induction lines with
  | nil => cases hl
  | cons l0 rest ih =>
    rcases List.mem_cons.mp hl with rfl | hmem
    · exact ⟨er, by simp only [scanRows]; rw [he]; rfl⟩
    · cases h0 : scanLine startK endK filter l0 with
      | error er0 => exact ⟨er0, by simp only [scanRows]; rw [h0]; rfl⟩
      | ok e0 =>
        obtain ⟨er2, hr⟩ := ih hmem
        refine ⟨er2, ?_⟩
        simp only [scanRows]
        rw [h0]
        show (scanRows startK endK filter rest).bind _ = _
        rw [hr]
        rfl

theorem mapM_scanFile (startK endK : Nat) (filter : Option Chars) (arcs : List (List Chars))
    (h : ∀ rs ∈ arcs, ∀ l ∈ rs, (decodeLine l).isSome) :
    (arcs.map (fun rs => (⟨true, true, rs⟩ : ScanFile))).mapM (scanFile startK endK filter) =
      .ok (arcs.map (fun rs =>
        (rs.filterMap decodeLine).filter (entryMatch startK endK filter))) := by
  induction arcs with
  | nil => rfl
  | cons rs rest ih =>
    have h1 := scanRows_decodable startK endK filter (h rs (by simp))
    have h2 := ih (fun x hx l hl => h x (by simp [hx]) l hl)
    simp only [List.map_cons, List.mapM_cons]
    rw [show scanFile startK endK filter ⟨true, true, rs⟩ = scanRows startK endK filter rs
      from rfl, h1]
    show (List.mapM (scanFile startK endK filter) _).bind _ = _
    rw [h2]
    rfl

theorem filterMap_flatten_push (p : Entry → Bool) (arcs : List (List Chars)) :
    ((arcs.flatten).filterMap decodeLine).filter p =
      (arcs.map (fun rs => (rs.filterMap decodeLine).filter p)).flatten := by
  induction arcs with
  | nil => rfl
  | cons rs rest ih =>
    simp only [List.flatten_cons, List.filterMap_append, List.filter_append, ih, List.map_cons]

theorem read_logs_quiescent (rowsA : List Chars) (arcs : List (List Chars))
    (startK endK : Nat) (filter : Option Chars)
    (hwf : ∀ l ∈ rowsA ++ arcs.flatten, (decodeLine l).isSome) :
    read_logs ⟨true, true, rowsA⟩ (arcs.map (fun rs => ⟨true, true, rs⟩)) startK endK filter =
      .ok ((((rowsA ++ arcs.flatten).filterMap decodeLine).filter
        (entryMatch startK endK filter)).insertionSort entryRel) := by
  have hA : ∀ l ∈ rowsA, (decodeLine l).isSome := fun l hl => hwf l (by simp [hl])
  have hArcs : ∀ rs ∈ arcs, ∀ l ∈ rs, (decodeLine l).isSome := by
    intro rs hrs l hl
    refine hwf l ?_
    rw [List.mem_append]
    exact Or.inr (List.mem_flatten.mpr ⟨rs, hrs, hl⟩)
  unfold read_logs
  rw [show scanFile startK endK filter ⟨true, true, rowsA⟩
      = scanRows startK endK filter rowsA from rfl,
    scanRows_decodable startK endK filter hA]
  show ((arcs.map fun rs => (⟨true, true, rs⟩ : ScanFile)).mapM
      (scanFile startK endK filter)).bind _ = _
  rw [mapM_scanFile startK endK filter arcs hArcs]
  show Except.ok _ = _
  congr 2
  rw [List.filterMap_append, List.filter_append, filterMap_flatten_push]

theorem read_logsM_spec (st : LoggerState) (startK endK : Nat) (filter : Option Chars)
    (hwf : ∀ l ∈ stLines st, (decodeLine l).isSome) :
    read_logsM st startK endK filter =
      .ok (((stEntries st).filter (entryMatch startK endK filter)).insertionSort entryRel) := by
  unfold stEntries stLines at *
  unfold read_logsM
  rw [show st.archives.map (fun a => (⟨true, true, a.rows⟩ : ScanFile))
      = (st.archives.map ArchiveFile.rows).map (fun rs => ⟨true, true, rs⟩) by
    simp [List.map_map]]
  exact read_logs_quiescent st.active.rows (st.archives.map ArchiveFile.rows)
    startK endK filter hwf

theorem update_step (cfg : Config) (done : List Ev) (e : Ev) (st : LoggerState)
    (hInv : RunInv cfg done st)
    (hlt : ∀ x ∈ done, x.now < e.now)
    (hspan : ∀ x ∈ done, e.now - x.now ≤ cfg.retention * 86400)
    (hret : 0 ≤ cfg.retention) :
    RunInv cfg (done ++ [e]) (update e.tsNow e.now true e.sid e.value e.unit st).1 := by
  obtain ⟨hcfg, hfp, hrows, hts⟩ := hInv
  unfold update
  rw [hfp, if_pos rfl]
  by_cases hrot : needs_rotation st.cfg (st.lineCount + 1) e.now e.now
      (fileSize ⟨st.active.hasHeader,
        st.active.rows ++ [encodeReading ⟨e.tsNow, e.sid, e.value, e.unit⟩],
        st.active.ctime, e.now⟩) = true
  · rw [if_pos hrot]
    unfold rotate
    rw [if_pos rfl]
    have hne : ∀ a ∈ st.archives, (!(a.nameTs == e.now)) = true := by
      intro a ha
      obtain ⟨x, hx, hax⟩ := hts a ha
      have := hlt x hx
      simp only [Bool.not_eq_eq_eq_not, Bool.not_true, beq_eq_false_iff_ne]
      omega
    have hclean : ∀ (rs : List Chars), cleanupOwn (e.now - st.cfg.retention * 86400)
        (st.archives ++ [⟨e.now, rs⟩]) = st.archives ++ [⟨e.now, rs⟩] := by
      intro rs
      unfold cleanupOwn
      rw [List.filter_eq_self]
      intro a ha
      rcases List.mem_append.mp ha with ha2 | ha2
      · obtain ⟨x, hx, hax⟩ := hts a ha2
        have h1 := hspan x hx
        show (if a.nameTs < e.now - st.cfg.retention * 86400 then !true else true) = true
        rw [if_neg (by rw [hcfg]; omega)]
      · have ha3 : a = ⟨e.now, rs⟩ := by simpa using ha2
        subst ha3
        show (if e.now < e.now - st.cfg.retention * 86400 then !true else true) = true
        rw [if_neg (by
          have h2 : (0 : Int) ≤ st.cfg.retention * 86400 := by
            rw [hcfg]
            positivity
          omega)]
    refine ⟨hcfg, rfl, ?_, ?_⟩
    · show ((cleanupOwn _ (List.filter _ st.archives ++ _)).map ArchiveFile.rows).flatten ++ [] = _
      rw [List.filter_eq_self.mpr hne, hclean]
      simp only [List.map_append, List.flatten_append, List.map_cons, List.map_nil,
        List.flatten_cons, List.flatten_nil, List.append_nil, List.map_append]
      rw [← List.append_assoc, hrows]
      simp [Ev.reading]
    · intro a ha
      rw [List.filter_eq_self.mpr hne] at ha
      rw [hclean] at ha
      rcases List.mem_append.mp ha with ha2 | ha2
      · obtain ⟨x, hx, hax⟩ := hts a ha2
        exact ⟨x, by simp [hx], hax⟩
      · refine ⟨e, by simp, ?_⟩
        have ha3 : a = ⟨e.now, st.active.rows ++
            [encodeReading ⟨e.tsNow, e.sid, e.value, e.unit⟩]⟩ := by simpa using ha2
        rw [ha3]
  · rw [if_neg hrot]
    refine ⟨hcfg, rfl, ?_, ?_⟩
    · show (st.archives.map ArchiveFile.rows).flatten ++ (st.active.rows ++ _) = _
      rw [← List.append_assoc, hrows]
      simp [Ev.reading]
    · intro a ha
      obtain ⟨x, hx, hax⟩ := hts a ha
      exact ⟨x, by simp [hx], hax⟩

theorem runUpdates_inv (cfg : Config) : ∀ (evs done : List Ev) (st : LoggerState),
    RunInv cfg done st →
    List.Pairwise (fun a b => a.now < b.now) (done ++ evs) →
    (∀ a ∈ done ++ evs, ∀ b ∈ done ++ evs, b.now - a.now ≤ cfg.retention * 86400) →
    0 ≤ cfg.retention →
    RunInv cfg (done ++ evs) (runUpdates st evs)
  | [], done, st, hInv, _, _, _ => by simpa using hInv
  | e :: rest, done, st, hInv, hpw, hspan, hret => by
    have hlt : ∀ x ∈ done, x.now < e.now := by
      intro x hx
      exact (List.pairwise_append.mp hpw).2.2 x hx e (by simp)
    have hstep := update_step cfg done e st hInv hlt
      (fun x hx => hspan x (by simp [hx]) e (by simp)) hret
    have heq : done ++ e :: rest = (done ++ [e]) ++ rest := by simp
    show RunInv cfg (done ++ e :: rest)
      (runUpdates (update e.tsNow e.now true e.sid e.value e.unit st).1 rest)
    rw [heq]
    exact runUpdates_inv cfg rest (done ++ [e]) _ hstep (by rw [← heq]; exact hpw)
      (by rw [← heq]; exact hspan) hret

theorem filterMap_decode_encode (evs : List Ev)
    (hval : ∀ e ∈ evs, validReading e.reading = true) :
    ((evs.map (fun e => encodeReading e.reading)).filterMap decodeLine) =
      evs.map (fun e => e.reading.toEntry) := by
  induction evs with
  | nil => rfl
  | cons e rest ih =>
    simp only [List.map_cons, List.filterMap_cons,
      decodeLine_encode (hval e (by simp)), ih (fun x hx => hval x (by simp [hx]))]

theorem needs_rotation_iff (cfg : Config) (lineCount : Nat) (now mtime : Int) (size : Nat) :
    needs_rotation cfg lineCount now mtime size = true ↔
      ((lineCount : Int) ≥ cfg.rotate_after ∨ now - mtime ≥ cfg.rotate_every * 3600 ∨
        (size : Int) ≥ cfg.max_size * 1024 * 1024) := by
  unfold needs_rotation
  by_cases h1 : (lineCount : Int) ≥ cfg.rotate_after <;>
    by_cases h2 : now - mtime ≥ cfg.rotate_every * 3600 <;>
      by_cases h3 : (size : Int) ≥ cfg.max_size * 1024 * 1024 <;>
        simp [h1, h2, h3]

/-! ### The claims -/

/-- C2: for every `start`, `end` and optional `sensor_id`, `read_logs`
returns exactly those stored readings whose timestamp `t` satisfies
`start ≤ t ≤ end` (both bounds inclusive) and, when a sensor filter is
given, whose `sensor_id` equals it — as a multiset — sorted ascending by
timestamp, regardless of whether each row resides in the active file or in
an archive.  Stored readings are the decodable rows of the state's files
(the hypothesis `hwf`); `start`/`end` enter as datetime keys. -/
theorem claim2_read_filter_correct (st : LoggerState) (startK endK : Nat)
    (filter : Option Chars) (hwf : ∀ l ∈ stLines st, (decodeLine l).isSome) :
    ∃ res, read_logsM st startK endK filter = .ok res ∧
      res.Perm ((stEntries st).filter (entryMatch startK endK filter)) ∧
      res.Pairwise (fun a b => a.timestamp.key ≤ b.timestamp.key) := by
  refine ⟨_, read_logsM_spec st startK endK filter hwf,
    List.perm_insertionSort entryRel _, ?_⟩
  have hs : List.Sorted entryRel (((stEntries st).filter
      (entryMatch startK endK filter)).insertionSort entryRel) :=
    List.sorted_insertionSort entryRel ((stEntries st).filter (entryMatch startK endK filter))
  exact hs

/-- C2 witness: a state with one active row and one archived row. -/
theorem claim2_read_filter_correct_witness :
    ∃ res, read_logsM ⟨⟨1, 1, 10, 30⟩,
        ⟨true, [('2' :: "020-01-05T10:00:00,s1,1.5,C".toList)], 0, 0⟩, 1,
        [⟨0, [('2' :: "020-01-04T10:00:00,s2,2.5,C".toList)]⟩], true⟩
      0 1000000000000000000 none = .ok res ∧
      res.Perm ((stEntries ⟨⟨1, 1, 10, 30⟩,
        ⟨true, [('2' :: "020-01-05T10:00:00,s1,1.5,C".toList)], 0, 0⟩, 1,
        [⟨0, [('2' :: "020-01-04T10:00:00,s2,2.5,C".toList)]⟩], true⟩).filter
          (entryMatch 0 1000000000000000000 none)) ∧
      res.Pairwise (fun a b => a.timestamp.key ≤ b.timestamp.key) :=
  claim2_read_filter_correct _ 0 1000000000000000000 none (by decide)

/-- C3: for every valid reading, decoding the CSV row written by
`Logger.update` (ISO timestamp, stringified float value) with the parse
performed by `read_logs` yields the reading back exactly: the decoded dict
is the injective image `Reading.toEntry` of the reading. -/
theorem claim3_decode_encode_roundtrip (r : Reading) (h : validReading r = true) :
    decodeLine (encodeReading r) = some r.toEntry ∧
      ∀ r2 : Reading, r2.toEntry = r.toEntry → r2 = r := by
  refine ⟨decodeLine_encode h, ?_⟩
  intro r2 h2
  obtain ⟨ts, sid, v, u⟩ := r
  obtain ⟨ts2, sid2, v2, u2⟩ := r2
  simpa [Reading.toEntry] using h2

/-- C3 witness: a concrete reading with microseconds and a signed value. -/
theorem claim3_decode_encode_roundtrip_witness :
    validReading ⟨⟨2021, 3, 14, 15, 9, 26, 535897⟩, ('s' :: "1".toList),
        ⟨true, 2, [7, 1, 8]⟩, ('°' :: "C".toList)⟩ = true ∧
      (decodeLine (encodeReading ⟨⟨2021, 3, 14, 15, 9, 26, 535897⟩, ('s' :: "1".toList),
          ⟨true, 2, [7, 1, 8]⟩, ('°' :: "C".toList)⟩) =
        some (Reading.toEntry ⟨⟨2021, 3, 14, 15, 9, 26, 535897⟩, ('s' :: "1".toList),
          ⟨true, 2, [7, 1, 8]⟩, ('°' :: "C".toList)⟩) ∧
      ∀ r2 : Reading, r2.toEntry = Reading.toEntry ⟨⟨2021, 3, 14, 15, 9, 26, 535897⟩,
          ('s' :: "1".toList), ⟨true, 2, [7, 1, 8]⟩, ('°' :: "C".toList)⟩ →
        r2 = ⟨⟨2021, 3, 14, 15, 9, 26, 535897⟩, ('s' :: "1".toList),
          ⟨true, 2, [7, 1, 8]⟩, ('°' :: "C".toList)⟩) :=
  ⟨by decide, claim3_decode_encode_roundtrip _ (by decide)⟩

/-- C4 counterexample: the claim computes file age from the creation time,
but `_needs_rotation` reads `st_mtime`.  With an hour threshold of 1, a
file created at instant 0 but last written at 7200, and the clock at 7200:
age from creation is two hours, so the claimed predicate fires, while the
code sees age 0 and returns false (count and size triggers quiet). -/
theorem claim4_counterexample :
    needs_rotation ⟨1, 1, 10, 30⟩ 0 7200 7200 0 = false ∧
      needs_rotation_claimed ⟨1, 1, 10, 30⟩ 0 7200 0 0 = true := by decide

/-- C4 amended: `_needs_rotation` returns true iff row count ≥
`rotate_after_lines`, or now minus the file's **last-modification** time
(`st_mtime`) ≥ `rotate_every_hours`, or file size ≥ `max_size_mb`
mebibytes; the triggers are OR'd and each comparison is `≥`. -/
theorem claim4_rotation_predicate_mtime (cfg : Config) (lineCount : Nat)
    (now mtime : Int) (size : Nat) :
    needs_rotation cfg lineCount now mtime size = true ↔
      ((lineCount : Int) ≥ cfg.rotate_after ∨ now - mtime ≥ cfg.rotate_every * 3600 ∨
        (size : Int) ≥ cfg.max_size * 1024 * 1024) :=
  needs_rotation_iff cfg lineCount now mtime size

/-- C4 witness: a single quiet count trigger forces rotation. -/
theorem claim4_rotation_predicate_mtime_witness :
    needs_rotation ⟨1, 1, 3, 30⟩ 5 0 0 0 = true :=
  (claim4_rotation_predicate_mtime ⟨1, 1, 3, 30⟩ 5 0 0 0).mpr (Or.inl (by decide))

/-- C7: the retention sweep deletes a directory entry iff its filename
timestamp parses and `now - ts` strictly exceeds the retention window (and
its `unlink` goes through); an entry whose name does not parse is always
kept; and the sweep decomposes around any single entry, so one failing
entry never stops the sweep over the rest. -/
theorem claim7_retention_sweep (now retention : Int) (dir : List DirEntry) :
    (∀ e ∈ dir, e.unlinkOk = true →
      (e ∉ cleanup_archives (now - retention * 86400) dir ↔
        ∃ ts, e.tsParse = some ts ∧ now - ts > retention * 86400)) ∧
    (∀ e ∈ dir, e.tsParse = none → e ∈ cleanup_archives (now - retention * 86400) dir) ∧
    (∀ pre bad post, dir = pre ++ bad :: post →
      cleanup_archives (now - retention * 86400) dir =
        cleanup_archives (now - retention * 86400) pre ++
          cleanup_archives (now - retention * 86400) [bad] ++
          cleanup_archives (now - retention * 86400) post) := by
  refine ⟨?_, ?_, ?_⟩
  · intro e he hu
    unfold cleanup_archives
    rw [show (e ∉ List.filter (sweepKeeps (now - retention * 86400)) dir) ↔
        ¬(e ∈ dir ∧ sweepKeeps (now - retention * 86400) e = true) by
      rw [List.mem_filter]]
    constructor
    · intro hn
      by_cases hk : sweepKeeps (now - retention * 86400) e = true
      · exact absurd ⟨he, hk⟩ hn
      · cases hts : e.tsParse with
        | none => exact absurd (by unfold sweepKeeps; rw [hts]) hk
        | some ts =>
          refine ⟨ts, rfl, ?_⟩
          by_contra hgt
          refine hk ?_
          unfold sweepKeeps
          rw [hts]
          show (if ts < now - retention * 86400 then !e.unlinkOk else true) = true
          rw [if_neg (by omega)]
    · rintro ⟨ts, hts, hgt⟩ ⟨_, hk⟩
      unfold sweepKeeps at hk
      rw [hts] at hk
      have hk2 : (if ts < now - retention * 86400 then !e.unlinkOk else true) = true := hk
      rw [if_pos (by omega), hu] at hk2
      exact absurd hk2 (by decide)
  · intro e he hts
    unfold cleanup_archives
    rw [List.mem_filter]
    exact ⟨he, by unfold sweepKeeps; rw [hts]⟩
  · intro pre bad post hdir
    subst hdir
    unfold cleanup_archives
    simp only [List.filter_append]
    by_cases hk : sweepKeeps (now - retention * 86400) bad = true <;>
      simp [List.filter_cons, hk]

/-- C7 witness: three entries — expired and deletable, unparsable, fresh.
The expired one is gone, the other two survive, and the sweep decomposes
around the unparsable entry. -/
theorem claim7_retention_sweep_witness :
    ((⟨some 0, true⟩ : DirEntry) ∈ [(⟨some 0, true⟩ : DirEntry)] →
      (⟨some 0, true⟩ : DirEntry).unlinkOk = true →
      ((⟨some 0, true⟩ : DirEntry) ∉ cleanup_archives ((200000 : Int) - 1 * 86400)
          [(⟨some 0, true⟩ : DirEntry)] ↔
        ∃ ts, (⟨some 0, true⟩ : DirEntry).tsParse = some ts ∧
          (200000 : Int) - ts > 1 * 86400)) ∧
    ((⟨some 0, true⟩ : DirEntry) ∉ cleanup_archives ((200000 : Int) - 1 * 86400)
        [(⟨some 0, true⟩ : DirEntry)]) :=
  ⟨fun _ => ((claim7_retention_sweep 200000 1 [⟨some 0, true⟩]).1 ⟨some 0, true⟩ (by decide)),
    ((claim7_retention_sweep 200000 1 [⟨some 0, true⟩]).1 ⟨some 0, true⟩ (by decide)
      rfl).mpr ⟨0, rfl, by decide⟩⟩

/-- C10: constructing a `Logger` over a preexisting current file keeps the
file exactly as it is (append mode, no new header) while `_line_count`
starts at 0; consequently the line-count trigger counts only rows appended
by this instance — with any positive `rotate_after_lines` it cannot fire
at construction time however many rows the preexisting file holds. -/
theorem claim10_fresh_line_count (cfg : Config) (now : Int) (f : ActiveFile)
    (arcs : List ArchiveFile) :
    (mkLogger cfg now (some f) arcs).lineCount = 0 ∧
    (mkLogger cfg now (some f) arcs).active = f ∧
    (1 ≤ cfg.rotate_after →
      ∀ (now2 mtime : Int) (size : Nat),
        (needs_rotation cfg (mkLogger cfg now (some f) arcs).lineCount now2 mtime size = true ↔
          (now2 - mtime ≥ cfg.rotate_every * 3600 ∨
            (size : Int) ≥ cfg.max_size * 1024 * 1024))) := by
  refine ⟨rfl, rfl, ?_⟩
  intro hra now2 mtime size
  rw [show (mkLogger cfg now (some f) arcs).lineCount = 0 from rfl]
  rw [needs_rotation_iff]
  constructor
  · rintro (h1 | h2 | h3)
    · simp only [Nat.cast_zero, ge_iff_le] at h1
      omega
    · exact Or.inl h2
    · exact Or.inr h3
  · rintro (h2 | h3)
    · exact Or.inr (Or.inl h2)
    · exact Or.inr (Or.inr h3)

/-- C10 witness: a preexisting 40-row file; the counter still starts at 0
and the count trigger stays quiet. -/
theorem claim10_fresh_line_count_witness :
    (mkLogger ⟨1, 1, 3, 30⟩ 5 (some ⟨false, List.replicate 40 ['x'], 0, 0⟩) []).lineCount = 0 ∧
      needs_rotation ⟨1, 1, 3, 30⟩
        (mkLogger ⟨1, 1, 3, 30⟩ 5
          (some ⟨false, List.replicate 40 ['x'], 0, 0⟩) []).lineCount 0 0 0 = false := by
  have h := claim10_fresh_line_count ⟨1, 1, 3, 30⟩ 5 ⟨false, List.replicate 40 ['x'], 0, 0⟩ []
  refine ⟨h.1, ?_⟩
  have h3 := h.2.2 (by decide) 0 0 0
  cases hnr : needs_rotation ⟨1, 1, 3, 30⟩
      (mkLogger ⟨1, 1, 3, 30⟩ 5 (some ⟨false, List.replicate 40 ['x'], 0, 0⟩) []).lineCount 0 0 0
  · rfl
  · exact absurd (h3.mp hnr) (by decide)

theorem fileSize_le_append (h : Bool) (A B : List Chars) (c1 m1 c2 m2 : Int) :
    fileSize ⟨h, A, c1, m1⟩ ≤ fileSize ⟨h, A ++ B, c2, m2⟩ := by
  cases h
  · simp [fileSize, List.map_append]
  · simp [fileSize, List.map_append]

/-- A run whose line count stays below the threshold, with a positive age
threshold and enough size headroom for all its rows, never rotates: the
rows simply accumulate in the active file. -/
theorem runQuiet (cfg : Config) : ∀ (evs : List Ev) (st : LoggerState),
    st.cfg = cfg → st.fpOpen = true → st.archives = [] →
    st.active.hasHeader = true →
    ((st.lineCount : Int) + evs.length < cfg.rotate_after) →
    1 ≤ cfg.rotate_every →
    ((fileSize ⟨true, st.active.rows ++ evs.map (fun e => encodeReading e.reading), 0, 0⟩ : Int)
      < cfg.max_size * 1024 * 1024) →
    (runUpdates st evs).lineCount = st.lineCount + evs.length ∧
    (runUpdates st evs).active.rows
        = st.active.rows ++ evs.map (fun e => encodeReading e.reading) ∧
    (runUpdates st evs).archives = [] ∧
    (runUpdates st evs).fpOpen = true ∧
    (runUpdates st evs).active.hasHeader = true ∧
    (runUpdates st evs).cfg = cfg
  | [], st, h1, h2, h3, h4, h5, h6, h7 => by
    refine ⟨by simp [runUpdates], by simp [runUpdates], by simpa [runUpdates] using h3,
      by simpa [runUpdates] using h2, by simpa [runUpdates] using h4,
      by simpa [runUpdates] using h1⟩
  | e :: rest, st, h1, h2, h3, h4, h5, h6, h7 => by
    have hnr : needs_rotation st.cfg (st.lineCount + 1) e.now e.now
        (fileSize ⟨st.active.hasHeader,
          st.active.rows ++ [encodeReading ⟨e.tsNow, e.sid, e.value, e.unit⟩],
          st.active.ctime, e.now⟩) = false := by
      rw [Bool.eq_false_iff]
      intro hco
      rcases (needs_rotation_iff _ _ _ _ _).mp hco with hq | hq | hq
      · rw [h1] at hq
        simp only [List.length_cons] at h5
        push_cast at hq h5
        omega
      · rw [h1] at hq
        omega
      · have hle := fileSize_le_append true
          (st.active.rows ++ [encodeReading ⟨e.tsNow, e.sid, e.value, e.unit⟩])
          (rest.map (fun x => encodeReading x.reading)) 0 0 0 0
        rw [List.append_assoc] at hle
        have hmap : encodeReading ⟨e.tsNow, e.sid, e.value, e.unit⟩ ::
            rest.map (fun x => encodeReading x.reading)
            = (e :: rest).map (fun x => encodeReading x.reading) := by
          simp [Ev.reading]
        rw [show [encodeReading ⟨e.tsNow, e.sid, e.value, e.unit⟩] ++
            rest.map (fun x => encodeReading x.reading)
            = encodeReading ⟨e.tsNow, e.sid, e.value, e.unit⟩ ::
              rest.map (fun x => encodeReading x.reading) from rfl, hmap] at hle
        rw [h4, h1] at hq
        rw [show fileSize ⟨true,
            st.active.rows ++ [encodeReading ⟨e.tsNow, e.sid, e.value, e.unit⟩],
            st.active.ctime, e.now⟩ = fileSize ⟨true,
            st.active.rows ++ [encodeReading ⟨e.tsNow, e.sid, e.value, e.unit⟩], 0, 0⟩
          from rfl] at hq
        omega
    have hupd : (update e.tsNow e.now true e.sid e.value e.unit st).1
        = { st with
            active := { st.active with
              rows := st.active.rows ++ [encodeReading ⟨e.tsNow, e.sid, e.value, e.unit⟩],
              mtime := e.now }
            lineCount := st.lineCount + 1 } := by
      unfold update
      rw [h2, if_pos rfl, hnr]
      rfl
    have hstep : runUpdates st (e :: rest)
        = runUpdates (update e.tsNow e.now true e.sid e.value e.unit st).1 rest := rfl
    rw [hstep, hupd]
    have hres := runQuiet cfg rest
      { st with
        active := { st.active with
          rows := st.active.rows ++ [encodeReading ⟨e.tsNow, e.sid, e.value, e.unit⟩],
          mtime := e.now }
        lineCount := st.lineCount + 1 }
      h1 h2 h3 h4
      (by simp only [List.length_cons] at h5; push_cast at h5 ⊢; omega)
      h6
      (by
        show ((fileSize ⟨true, (st.active.rows ++ _) ++ _, 0, 0⟩ : Int)) < _
        rw [List.append_assoc]
        rw [show [encodeReading ⟨e.tsNow, e.sid, e.value, e.unit⟩] ++
            rest.map (fun x => encodeReading x.reading)
            = (e :: rest).map (fun x => encodeReading x.reading) by simp [Ev.reading]]
        exact h7)
    obtain ⟨q1, q2, q3, q4, q5, q6⟩ := hres
    refine ⟨by rw [q1]; simp only [List.length_cons]; omega, ?_, q3, q4, q5, q6⟩
    rw [q2]
    simp only [List.append_assoc]
    rw [show [encodeReading ⟨e.tsNow, e.sid, e.value, e.unit⟩] ++
        rest.map (fun x => encodeReading x.reading)
        = (e :: rest).map (fun x => encodeReading x.reading) by simp [Ev.reading]]

/-- C5 counterexample: with `rotate_after_lines = 1`, already the **first**
append — not the second — rotates: after exactly N = 1 successful appends
to a fresh file the archive exists (holding the just-written row) and the
active file is empty, where the claim says the archive appears only during
the (N+1)-th append, before that append's row is written. -/
theorem claim5_counterexample :
    (runUpdates (mkLogger ⟨1000, 1000, 1, 30⟩ 0 none [])
      [⟨⟨2024, 1, 1, 0, 0, 0, 0⟩, ['a'], ⟨false, 1, [5]⟩, ['C'], 0⟩]).archives.map
        ArchiveFile.rows =
      [[encodeReading ⟨⟨2024, 1, 1, 0, 0, 0, 0⟩, ['a'], ⟨false, 1, [5]⟩, ['C']⟩]] ∧
    (runUpdates (mkLogger ⟨1000, 1000, 1, 30⟩ 0 none [])
      [⟨⟨2024, 1, 1, 0, 0, 0, 0⟩, ['a'], ⟨false, 1, [5]⟩, ['C'], 0⟩]).active.rows = [] := by
  decide

/-- Running an event list splits at any point. -/
theorem runUpdates_append (st : LoggerState) : ∀ (a b : List Ev),
    runUpdates st (a ++ b) = runUpdates (runUpdates st a) b := by
  intro a
  induction a generalizing st with
  | nil => intro b; rfl
  | cons e rest ih => intro b; exact ih _ b

/-- Singleton archive directories with a fresh stamp survive the sweep. -/
theorem cleanupOwn_singleton (expire ts : Int) (rows : List Chars) (h : ¬ ts < expire) :
    cleanupOwn expire [⟨ts, rows⟩] = [⟨ts, rows⟩] := by
  unfold cleanupOwn
  rw [List.filter_eq_self]
  intro a ha
  have ha2 : a = (⟨ts, rows⟩ : ArchiveFile) := by simpa using ha
  subst ha2
  show (if ts < expire then !true else true) = true
  rw [if_neg h]

/-- C5 amended: with `rotate_after_lines = N`, it is the N-th append that
observes the rotation predicate true — after writing its own row — and
produces exactly one new archive holding all N rows, leaving the active
file empty; and when `rotate_after_lines ≥ 2`, the (N+1)-th appended row
lands in the new active file with no further archive (with
`rotate_after_lines = 1` that next append itself immediately rotates
again). -/
theorem claim5_rotation_on_nth_append (cfg : Config) (n0 : Int) (evs0 : List Ev)
    (eN e2 : Ev)
    (hN : cfg.rotate_after = ((evs0.length + 1 : Nat) : Int))
    (hre : 1 ≤ cfg.rotate_every) (hret : 0 ≤ cfg.retention)
    (hsz : ((fileSize ⟨true, (evs0 ++ [eN]).map (fun e => encodeReading e.reading), 0, 0⟩ : Nat)
      : Int) < cfg.max_size * 1024 * 1024)
    (hsz2 : ((fileSize ⟨true, [encodeReading e2.reading], 0, 0⟩ : Nat) : Int)
      < cfg.max_size * 1024 * 1024) :
    (runUpdates (mkLogger cfg n0 none []) (evs0 ++ [eN])).archives
        = [⟨eN.now, (evs0 ++ [eN]).map (fun e => encodeReading e.reading)⟩] ∧
    (runUpdates (mkLogger cfg n0 none []) (evs0 ++ [eN])).active.rows = [] ∧
    (runUpdates (mkLogger cfg n0 none []) (evs0 ++ [eN])).lineCount = 0 ∧
    (2 ≤ cfg.rotate_after →
      (update e2.tsNow e2.now true e2.sid e2.value e2.unit
          (runUpdates (mkLogger cfg n0 none []) (evs0 ++ [eN]))).1.active.rows
        = [encodeReading e2.reading] ∧
      (update e2.tsNow e2.now true e2.sid e2.value e2.unit
          (runUpdates (mkLogger cfg n0 none []) (evs0 ++ [eN]))).1.archives
        = (runUpdates (mkLogger cfg n0 none []) (evs0 ++ [eN])).archives) := by
  have hretw : (0 : Int) ≤ cfg.retention * 86400 := mul_nonneg hret (by norm_num)
  have hpre := runQuiet cfg evs0 (mkLogger cfg n0 none []) rfl rfl rfl rfl
    (by
      show ((mkLogger cfg n0 none []).lineCount : Int) + evs0.length < cfg.rotate_after
      rw [show (mkLogger cfg n0 none []).lineCount = 0 from rfl, hN]
      push_cast
      omega)
    hre
    (by
      have hle := fileSize_le_append true (evs0.map (fun e => encodeReading e.reading))
        ([eN].map (fun e => encodeReading e.reading)) 0 0 0 0
      rw [← List.map_append] at hle
      show ((fileSize ⟨true, (mkLogger cfg n0 none []).active.rows ++
          evs0.map (fun e => encodeReading e.reading), 0, 0⟩ : Nat) : Int) < _
      rw [show (mkLogger cfg n0 none []).active.rows = [] from rfl, List.nil_append]
      omega)
  obtain ⟨p1, p2, p3, p4, p5, p6⟩ := hpre
  have hrowsA : (runUpdates (mkLogger cfg n0 none []) evs0).active.rows
      = evs0.map (fun e => encodeReading e.reading) := by
    rw [p2]
    rfl
  have hcountA : (runUpdates (mkLogger cfg n0 none []) evs0).lineCount = evs0.length := by
    rw [p1]
    show 0 + evs0.length = evs0.length
    omega
  have hnr : needs_rotation (runUpdates (mkLogger cfg n0 none []) evs0).cfg
      ((runUpdates (mkLogger cfg n0 none []) evs0).lineCount + 1) eN.now eN.now
      (fileSize ⟨(runUpdates (mkLogger cfg n0 none []) evs0).active.hasHeader,
        (runUpdates (mkLogger cfg n0 none []) evs0).active.rows ++
          [encodeReading ⟨eN.tsNow, eN.sid, eN.value, eN.unit⟩],
        (runUpdates (mkLogger cfg n0 none []) evs0).active.ctime, eN.now⟩) = true := by
    rw [p6]
    refine (needs_rotation_iff _ _ _ _ _).mpr (Or.inl ?_)
    rw [hcountA, hN]
  have hstN : runUpdates (mkLogger cfg n0 none []) (evs0 ++ [eN])
      = ⟨cfg, ⟨true, [], eN.now, eN.now⟩, 0,
          [⟨eN.now, (evs0 ++ [eN]).map (fun e => encodeReading e.reading)⟩], true⟩ := by
    rw [runUpdates_append]
    rw [show runUpdates (runUpdates (mkLogger cfg n0 none []) evs0) [eN]
        = (update eN.tsNow eN.now true eN.sid eN.value eN.unit
            (runUpdates (mkLogger cfg n0 none []) evs0)).1 from rfl]
    unfold update
    rw [p4, if_pos rfl, hnr]
    show (rotate eN.now true _).1 = _
    unfold rotate
    rw [if_pos rfl]
    show (⟨(runUpdates (mkLogger cfg n0 none []) evs0).cfg, ⟨true, [], eN.now, eN.now⟩, 0,
        cleanupOwn (eN.now - (runUpdates (mkLogger cfg n0 none []) evs0).cfg.retention * 86400)
          ((runUpdates (mkLogger cfg n0 none []) evs0).archives.filter
              (fun a => !(a.nameTs == eN.now)) ++
            [⟨eN.now, (runUpdates (mkLogger cfg n0 none []) evs0).active.rows ++
              [encodeReading ⟨eN.tsNow, eN.sid, eN.value, eN.unit⟩]⟩]),
        true⟩ : LoggerState) = _
    rw [p3, p6, hrowsA]
    rw [show (List.filter (fun a => !(a.nameTs == eN.now)) [] : List ArchiveFile) = [] from rfl,
      List.nil_append]
    rw [cleanupOwn_singleton _ _ _ (by omega)]
    rw [show evs0.map (fun e => encodeReading e.reading) ++
        [encodeReading ⟨eN.tsNow, eN.sid, eN.value, eN.unit⟩]
        = (evs0 ++ [eN]).map (fun e => encodeReading e.reading) by simp [Ev.reading]]
  have hnr2 : 2 ≤ cfg.rotate_after → needs_rotation cfg (0 + 1) e2.now e2.now
      (fileSize ⟨true, [] ++ [encodeReading ⟨e2.tsNow, e2.sid, e2.value, e2.unit⟩],
        eN.now, e2.now⟩) = false := by
    intro hN2
    rw [Bool.eq_false_iff]
    intro hco
    rcases (needs_rotation_iff _ _ _ _ _).mp hco with hq | hq | hq
    · push_cast at hq
      omega
    · omega
    · rw [show fileSize ⟨true, [] ++ [encodeReading ⟨e2.tsNow, e2.sid, e2.value, e2.unit⟩],
          eN.now, e2.now⟩
          = fileSize ⟨true, [encodeReading e2.reading], 0, 0⟩ from rfl] at hq
      omega
  refine ⟨by rw [hstN], by rw [hstN], by rw [hstN], ?_⟩
  intro hN2
  constructor
  · rw [hstN]
    unfold update
    rw [show ((⟨cfg, ⟨true, [], eN.now, eN.now⟩, 0,
        [⟨eN.now, (evs0 ++ [eN]).map (fun e => encodeReading e.reading)⟩], true⟩ :
          LoggerState)).fpOpen = true from rfl, if_pos rfl, hnr2 hN2]
    rfl
  · rw [hstN]
    unfold update
    rw [show ((⟨cfg, ⟨true, [], eN.now, eN.now⟩, 0,
        [⟨eN.now, (evs0 ++ [eN]).map (fun e => encodeReading e.reading)⟩], true⟩ :
          LoggerState)).fpOpen = true from rfl, if_pos rfl, hnr2 hN2]
    rfl

/-- C5 witness: threshold 2, two appends rotate both rows into one
archive stamped with the second append's instant, and the third append's
row lands in the new active file. -/
theorem claim5_rotation_on_nth_append_witness :
    (runUpdates (mkLogger ⟨1000, 1000, 2, 30⟩ 0 none [])
        ([(⟨⟨2024, 1, 1, 0, 0, 0, 0⟩, ['a'], ⟨false, 1, [0]⟩, ['C'], 0⟩ : Ev)] ++
          [(⟨⟨2024, 1, 1, 0, 0, 1, 0⟩, ['b'], ⟨false, 2, [0]⟩, ['C'], 1⟩ : Ev)])).archives
      = [⟨(⟨⟨2024, 1, 1, 0, 0, 1, 0⟩, ['b'], ⟨false, 2, [0]⟩, ['C'], 1⟩ : Ev).now,
          ([(⟨⟨2024, 1, 1, 0, 0, 0, 0⟩, ['a'], ⟨false, 1, [0]⟩, ['C'], 0⟩ : Ev)] ++
            [(⟨⟨2024, 1, 1, 0, 0, 1, 0⟩, ['b'], ⟨false, 2, [0]⟩, ['C'], 1⟩ : Ev)]).map
              (fun e => encodeReading e.reading)⟩] ∧
    (update ⟨2024, 1, 1, 0, 0, 2, 0⟩ 2 true ['c'] ⟨false, 3, [0]⟩ ['C']
        (runUpdates (mkLogger ⟨1000, 1000, 2, 30⟩ 0 none [])
          ([(⟨⟨2024, 1, 1, 0, 0, 0, 0⟩, ['a'], ⟨false, 1, [0]⟩, ['C'], 0⟩ : Ev)] ++
            [(⟨⟨2024, 1, 1, 0, 0, 1, 0⟩, ['b'], ⟨false, 2, [0]⟩, ['C'], 1⟩ : Ev)]))).1.active.rows
      = [encodeReading (Ev.reading ⟨⟨2024, 1, 1, 0, 0, 2, 0⟩, ['c'], ⟨false, 3, [0]⟩, ['C'], 2⟩)] :=
  ⟨(claim5_rotation_on_nth_append ⟨1000, 1000, 2, 30⟩ 0
      [⟨⟨2024, 1, 1, 0, 0, 0, 0⟩, ['a'], ⟨false, 1, [0]⟩, ['C'], 0⟩]
      ⟨⟨2024, 1, 1, 0, 0, 1, 0⟩, ['b'], ⟨false, 2, [0]⟩, ['C'], 1⟩
      ⟨⟨2024, 1, 1, 0, 0, 2, 0⟩, ['c'], ⟨false, 3, [0]⟩, ['C'], 2⟩
      (by decide) (by decide) (by decide) (by decide) (by decide)).1,
    ((claim5_rotation_on_nth_append ⟨1000, 1000, 2, 30⟩ 0
      [⟨⟨2024, 1, 1, 0, 0, 0, 0⟩, ['a'], ⟨false, 1, [0]⟩, ['C'], 0⟩]
      ⟨⟨2024, 1, 1, 0, 0, 1, 0⟩, ['b'], ⟨false, 2, [0]⟩, ['C'], 1⟩
      ⟨⟨2024, 1, 1, 0, 0, 2, 0⟩, ['c'], ⟨false, 3, [0]⟩, ['C'], 2⟩
      (by decide) (by decide) (by decide) (by decide) (by decide)).2.2.2 (by decide)).1⟩

/-- C6 counterexample: rotation fails during the first append (archive
write raises); the error is surfaced, but the handle was closed before
sealing and never reopened, so the **next** append raises `ValueError`
instead of succeeding — the writer is not usable for subsequent appends. -/
theorem claim6_counterexample :
    (update ⟨2024, 1, 1, 0, 0, 0, 0⟩ 0 false ['a'] ⟨false, 1, [0]⟩ ['C']
        (mkLogger ⟨1000, 1000, 1, 30⟩ 0 none [])).2 = some PyErr.zipFailed ∧
    (update ⟨2024, 1, 1, 0, 0, 1, 0⟩ 1 true ['b'] ⟨false, 2, [0]⟩ ['C']
        (update ⟨2024, 1, 1, 0, 0, 0, 0⟩ 0 false ['a'] ⟨false, 1, [0]⟩ ['C']
          (mkLogger ⟨1000, 1000, 1, 30⟩ 0 none [])).1).2 = some PyErr.closedFile ∧
    (update ⟨2024, 1, 1, 0, 0, 1, 0⟩ 1 true ['b'] ⟨false, 2, [0]⟩ ['C']
        (update ⟨2024, 1, 1, 0, 0, 0, 0⟩ 0 false ['a'] ⟨false, 1, [0]⟩ ['C']
          (mkLogger ⟨1000, 1000, 1, 30⟩ 0 none [])).1).1.active.rows
      = [encodeReading ⟨⟨2024, 1, 1, 0, 0, 0, 0⟩, ['a'], ⟨false, 1, [0]⟩, ['C']⟩] := by
  decide

/-- C6 amended: when archive creation fails during rotation, the active
file (including the row just appended) is left on disk untouched —
deletion happens only after a fully successful archive write — the
archives are unchanged, and the error is surfaced to the caller of
`update`; but the handle was closed before sealing and is not reopened, so
every subsequent append fails with `ValueError` rather than succeeding. -/
theorem claim6_failed_rotation_preserves_file (tsNow : DateTime) (now : Int) (sid : Chars)
    (v : PyFloat) (unitS : Chars) (st : LoggerState) (hfp : st.fpOpen = true)
    (hrot : needs_rotation st.cfg (st.lineCount + 1) now now
      (fileSize ⟨st.active.hasHeader,
        st.active.rows ++ [encodeReading ⟨tsNow, sid, v, unitS⟩],
        st.active.ctime, now⟩) = true) :
    (update tsNow now false sid v unitS st).2 = some .zipFailed ∧
    (update tsNow now false sid v unitS st).1.active.rows
        = st.active.rows ++ [encodeReading ⟨tsNow, sid, v, unitS⟩] ∧
    (update tsNow now false sid v unitS st).1.archives = st.archives ∧
    (update tsNow now false sid v unitS st).1.fpOpen = false ∧
    ∀ (ts2 : DateTime) (now2 : Int) (zipOk2 : Bool) (sid2 : Chars) (v2 : PyFloat) (u2 : Chars),
      update ts2 now2 zipOk2 sid2 v2 u2 (update tsNow now false sid v unitS st).1
        = ((update tsNow now false sid v unitS st).1, some .closedFile) := by
  have hu : update tsNow now false sid v unitS st
      = ({ st with
          active := { st.active with
            rows := st.active.rows ++ [encodeReading ⟨tsNow, sid, v, unitS⟩], mtime := now }
          lineCount := st.lineCount + 1, fpOpen := false }, some .zipFailed) := by
    unfold update
    rw [hfp, if_pos rfl, hrot]
    rfl
  rw [hu]
  exact ⟨rfl, rfl, rfl, rfl, fun _ _ _ _ _ _ => rfl⟩

/-- C6 witness: a fresh logger with threshold 1; the failing first append
surfaces the error while keeping the row on disk. -/
theorem claim6_failed_rotation_preserves_file_witness :
    (update ⟨2024, 1, 1, 0, 0, 0, 0⟩ 0 false ['a'] ⟨false, 1, [0]⟩ ['C']
        (mkLogger ⟨1000, 1000, 1, 30⟩ 0 none [])).2 = some .zipFailed ∧
    (update ⟨2024, 1, 1, 0, 0, 0, 0⟩ 0 false ['a'] ⟨false, 1, [0]⟩ ['C']
        (mkLogger ⟨1000, 1000, 1, 30⟩ 0 none [])).1.active.rows
      = (mkLogger ⟨1000, 1000, 1, 30⟩ 0 none []).active.rows ++
        [encodeReading ⟨⟨2024, 1, 1, 0, 0, 0, 0⟩, ['a'], ⟨false, 1, [0]⟩, ['C']⟩] :=
  ⟨(claim6_failed_rotation_preserves_file ⟨2024, 1, 1, 0, 0, 0, 0⟩ 0 ['a'] ⟨false, 1, [0]⟩
      ['C'] (mkLogger ⟨1000, 1000, 1, 30⟩ 0 none []) rfl (by decide)).1,
    (claim6_failed_rotation_preserves_file ⟨2024, 1, 1, 0, 0, 0, 0⟩ 0 ['a'] ⟨false, 1, [0]⟩
      ['C'] (mkLogger ⟨1000, 1000, 1, 30⟩ 0 none []) rfl (by decide)).2.1⟩

/-- C8 counterexample: the active file holds one decodable row and one row
with a non-numeric `value` inside the query range; instead of skipping the
bad row and returning the good one, `read_logs` aborts with the uncaught
conversion error. -/
theorem claim8_counterexample :
    read_logs ⟨true, true, [('2' :: "020-01-05T10:00:00,s1,1.5,C".toList),
        ('2' :: "020-01-05T11:00:00,s1,abc,C".toList)]⟩ [] 0 1000000000000000000 none
      = .error .badRow := by
  rfl

/-- C8 amended: there is no skip policy — one row of a scanned file that
fails to decode (unparsable timestamp, or non-numeric value on a row
matching the filter, or a missing timestamp/value field) makes the whole
`read_logs` call raise instead of returning the remaining rows. -/
theorem claim8_malformed_row_aborts_read (active : ScanFile) (archives : List ScanFile)
    (startK endK : Nat) (filter : Option Chars) (hl : active.listed = true)
    (hp : active.present = true)
    (hbad : ∃ l ∈ active.rows, ∃ er, scanLine startK endK filter l = .error er) :
    ∃ er2, read_logs active archives startK endK filter = .error er2 := by
  obtain ⟨l, hmem, er, he⟩ := hbad
  obtain ⟨er2, hr⟩ := scanRows_err startK endK filter hmem he
  refine ⟨er2, ?_⟩
  unfold read_logs
  rw [show scanFile startK endK filter active = scanRows startK endK filter active.rows by
    unfold scanFile
    rw [hl, if_pos rfl, hp, if_pos rfl]]
  rw [hr]
  rfl

/-- C8 witness: one bad row alone aborts the read. -/
theorem claim8_malformed_row_aborts_read_witness :
    ∃ er2, read_logs ⟨true, true, [('2' :: "020-01-05T11:00:00,s1,abc,C".toList)]⟩ []
      0 1000000000000000000 none = .error er2 :=
  claim8_malformed_row_aborts_read ⟨true, true,
      [('2' :: "020-01-05T11:00:00,s1,abc,C".toList)]⟩ [] 0 1000000000000000000 none rfl rfl
    ⟨('2' :: "020-01-05T11:00:00,s1,abc,C".toList), by simp, .badRow, by rfl⟩

/-- C9 counterexample: an archive present in the directory listing but
gone by the time it is opened (as a concurrent rotation causes) makes
`read_logs` raise `FileNotFoundError` instead of treating the file as
contributing no rows. -/
theorem claim9_counterexample :
    read_logs ⟨true, true, []⟩ [⟨true, false, []⟩] 0 0 none = .error .vanished := by
  rfl

/-- Auxiliary for C9: a listed-but-vanished archive always aborts the
archive scan. -/
theorem mapM_scanFile_err (startK endK : Nat) (filter : Option Chars) :
    ∀ (files : List ScanFile), (∃ z ∈ files, z.listed = true ∧ z.present = false) →
      ∃ er, files.mapM (scanFile startK endK filter) = .error er
  | [], h => absurd h (by simp)
  | f :: rest, h => by
    rcases h with ⟨z, hz, hzl, hzp⟩
    rcases List.mem_cons.mp hz with rfl | hmem
    · refine ⟨.vanished, ?_⟩
      simp only [List.mapM_cons]
      rw [show scanFile startK endK filter z = .error .vanished by
        unfold scanFile
        rw [hzl, if_pos rfl, hzp]
        rfl]
      rfl
    · cases h0 : scanFile startK endK filter f with
      | error er0 =>
        refine ⟨er0, ?_⟩
        simp only [List.mapM_cons]
        rw [h0]
        rfl
      | ok e0 =>
        obtain ⟨er, hr⟩ := mapM_scanFile_err startK endK filter rest ⟨z, hmem, hzl, hzp⟩
        refine ⟨er, ?_⟩
        simp only [List.mapM_cons]
        rw [h0]
        show (List.mapM (scanFile startK endK filter) rest).bind _ = _
        rw [hr]
        rfl

/-- C9 amended: the active file contributes no rows only when it is
already absent at the `exists()` check (its contents and open-time
presence are then irrelevant); but any file that is listed and then
vanishes before opening makes `read_logs` raise `FileNotFoundError`
instead of returning normally. -/
theorem claim9_vanished_file_behaviour :
    (∀ (present : Bool) (rows : List Chars) (archives : List ScanFile) (startK endK : Nat)
      (filter : Option Chars),
      read_logs ⟨false, present, rows⟩ archives startK endK filter =
        read_logs ⟨false, true, []⟩ archives startK endK filter) ∧
    (∀ (active : ScanFile) (archives : List ScanFile) (startK endK : Nat)
      (filter : Option Chars),
      (∃ z ∈ archives, z.listed = true ∧ z.present = false) →
      ∃ er, read_logs active archives startK endK filter = .error er) := by
  constructor
  · intro present rows archives startK endK filter
    rfl
  · intro active archives startK endK filter hz
    cases ha : scanFile startK endK filter active with
    | error e =>
      refine ⟨e, ?_⟩
      unfold read_logs
      rw [ha]
      rfl
    | ok a =>
      obtain ⟨er, hm⟩ := mapM_scanFile_err startK endK filter archives hz
      refine ⟨er, ?_⟩
      unfold read_logs
      rw [ha]
      show (archives.mapM (scanFile startK endK filter)).bind _ = _
      rw [hm]
      rfl

/-- C9 witness: part one at a nonempty vanished active file, part two at a
singleton vanished archive. -/
theorem claim9_vanished_file_behaviour_witness :
    (read_logs ⟨false, false, [['x']]⟩ [] 0 0 none = read_logs ⟨false, true, []⟩ [] 0 0 none) ∧
      ∃ er, read_logs ⟨true, true, []⟩ [⟨true, false, []⟩] 0 0 none = .error er :=
  ⟨claim9_vanished_file_behaviour.1 false [['x']] [] 0 0 none,
    claim9_vanished_file_behaviour.2 ⟨true, true, []⟩ [⟨true, false, []⟩] 0 0 none
      ⟨⟨true, false, []⟩, by simp, rfl, rfl⟩⟩

/-- C1 counterexample: two successful appends, each rotating
(`rotate_after_lines = 1`), one day and a second apart, with
`retention_days = 1`.  The retention sweep that `_rotate` runs inside the
second rotation deletes the first archive, so `read_logs` over an
unbounded range returns one entry although two readings were appended —
the multiset equality of the claim fails. -/
theorem claim1_counterexample :
    (read_logsM (runUpdates (mkLogger ⟨1000000, 1000, 1, 1⟩ 0 none [])
        [(⟨⟨2024, 1, 1, 0, 0, 0, 0⟩, ['a'], ⟨false, 1, [0]⟩, ['C'], 0⟩ : Ev),
          (⟨⟨2024, 1, 2, 0, 0, 1, 0⟩, ['a'], ⟨false, 2, [0]⟩, ['C'], 86401⟩ : Ev)])
        0 1000000000000000000 none).map List.length = .ok 1 ∧
    [(⟨⟨2024, 1, 1, 0, 0, 0, 0⟩, ['a'], ⟨false, 1, [0]⟩, ['C'], 0⟩ : Ev),
      (⟨⟨2024, 1, 2, 0, 0, 1, 0⟩, ['a'], ⟨false, 2, [0]⟩, ['C'], 86401⟩ : Ev)].length = 2 := by
  constructor
  · rfl
  · rfl

/-- C1 amended: over any sequence of successfully appended valid readings
whose `datetime.now()` instants are strictly increasing and whose total
span stays within the retention window (the retention sweep runs inside
every rotation and deletes expired archives; same-second rotations would
further overwrite one another's archive file), `read_logs` over a range
covering all timestamps and with no sensor filter returns exactly the
multiset of all appended readings, however many rotations occurred. -/
theorem claim1_no_data_loss_within_retention (cfg : Config) (now0 : Int) (evs : List Ev)
    (endK : Nat)
    (hval : ∀ e ∈ evs, validReading e.reading = true)
    (hpw : List.Pairwise (fun a b => a.now < b.now) evs)
    (hspan : ∀ a ∈ evs, ∀ b ∈ evs, b.now - a.now ≤ cfg.retention * 86400)
    (hret : 0 ≤ cfg.retention)
    (hend : ∀ e ∈ evs, e.tsNow.key ≤ endK) :
    ∃ res, read_logsM (runUpdates (mkLogger cfg now0 none []) evs) 0 endK none = .ok res ∧
      res.Perm (evs.map (fun e => e.reading.toEntry)) := by
  have hInv := runUpdates_inv cfg evs [] (mkLogger cfg now0 none [])
    ⟨rfl, rfl, rfl, by intro a ha; exact absurd ha (List.not_mem_nil a)⟩
    (by simpa using hpw) (by simpa using hspan) hret
  have hInv2 : RunInv cfg evs (runUpdates (mkLogger cfg now0 none []) evs) := by
    simpa using hInv
  obtain ⟨hcfg, hfp, hrows, hts⟩ := hInv2
  have hperm : (stLines (runUpdates (mkLogger cfg now0 none []) evs)).Perm
      (evs.map (fun e => encodeReading e.reading)) := by
    unfold stLines
    rw [← hrows]
    exact List.perm_append_comm
  have hwf : ∀ l ∈ stLines (runUpdates (mkLogger cfg now0 none []) evs),
      (decodeLine l).isSome := by
    intro l hl
    have hin : l ∈ evs.map (fun e => encodeReading e.reading) := hperm.mem_iff.mp hl
    obtain ⟨e, he, rfl⟩ := List.mem_map.mp hin
    rw [decodeLine_encode (hval e he)]
    rfl
  refine ⟨_, read_logsM_spec (runUpdates (mkLogger cfg now0 none []) evs) 0 endK none hwf, ?_⟩
  have h1 : (stEntries (runUpdates (mkLogger cfg now0 none []) evs)).Perm
      (evs.map fun e => e.reading.toEntry) := by
    unfold stEntries
    have h2 := hperm.filterMap decodeLine
    rw [filterMap_decode_encode evs hval] at h2
    exact h2
  have hfilter : ∀ x ∈ evs.map (fun e => e.reading.toEntry),
      entryMatch 0 endK none x = true := by
    intro x hx
    obtain ⟨e, he, rfl⟩ := List.mem_map.mp hx
    unfold entryMatch matchTs sidMatch Reading.toEntry Ev.reading
    simp [hend e he]
  have hchain := (List.perm_insertionSort entryRel
      ((stEntries (runUpdates (mkLogger cfg now0 none []) evs)).filter
        (entryMatch 0 endK none))).trans (h1.filter (entryMatch 0 endK none))
  rw [List.filter_eq_self.mpr hfilter] at hchain
  exact hchain

/-- C1 witness: a two-append run, one rotation, within the retention
window. -/
theorem claim1_no_data_loss_within_retention_witness :
    ∃ res, read_logsM (runUpdates (mkLogger ⟨1000000, 1000, 2, 30⟩ 0 none [])
        [(⟨⟨2024, 1, 1, 0, 0, 0, 0⟩, ['a'], ⟨false, 1, [0]⟩, ['C'], 0⟩ : Ev),
          (⟨⟨2024, 1, 1, 0, 0, 1, 0⟩, ['b'], ⟨false, 2, [0]⟩, ['C'], 1⟩ : Ev)])
        0 1000000000000000000 none = .ok res ∧
      res.Perm ([(⟨⟨2024, 1, 1, 0, 0, 0, 0⟩, ['a'], ⟨false, 1, [0]⟩, ['C'], 0⟩ : Ev),
        (⟨⟨2024, 1, 1, 0, 0, 1, 0⟩, ['b'], ⟨false, 2, [0]⟩, ['C'], 1⟩ : Ev)].map
          (fun e => e.reading.toEntry)) :=
  claim1_no_data_loss_within_retention ⟨1000000, 1000, 2, 30⟩ 0
    [(⟨⟨2024, 1, 1, 0, 0, 0, 0⟩, ['a'], ⟨false, 1, [0]⟩, ['C'], 0⟩ : Ev),
      (⟨⟨2024, 1, 1, 0, 0, 1, 0⟩, ['b'], ⟨false, 2, [0]⟩, ['C'], 1⟩ : Ev)]
    1000000000000000000 (by decide) (by decide) (by decide) (by decide) (by decide)

end SensorLog
